import Mathlib

/-!
# Free-look camera of `Project2.cpp`

A shallow embedding of the `Camera` class of `src/Project2.cpp`, of the
process-wide `ortho` flag it reads, of the projection matrices built by the
render loops of `src/Project2.cpp` and `src/Chest3D.cpp`, of the GLM
routines they call, of `flipImageVertically`, and of the vertex and index
arrays of the hardcoded meshes.

Scalars (`float` in the source) are elements of a linearly ordered field `α`;
the transcendental functions of the C++ runtime are gathered in a record
`MathFns α`, instantiated for the exact real numbers by `realMath`.  Apart
from `realMath` itself, all definitions are plain computable functions of
their arguments.
-/

set_option linter.unusedSectionVars false

namespace OpenGLClass

/-! ## Scalars -/

/-- The scalar functions the camera takes from `<cmath>` / GLM: square root,
cosine, sine, and the constant pi used for the degree-to-radian conversion. -/
structure MathFns (α : Type) where
  sqrt : α → α
  cos : α → α
  sin : α → α
  pi : α

/-- The scalar functions over exact real arithmetic. -/
noncomputable def realMath : MathFns ℝ :=
  ⟨Real.sqrt, Real.cos, Real.sin, Real.pi⟩

section Defs

variable {α : Type} [LinearOrderedField α]

/-- Conversion `glm::radians`: degrees times pi / 180. -/
def radians (m : MathFns α) (degrees : α) : α :=
  degrees * (m.pi / 180)

/-- Reciprocal square root `glm::inversesqrt`: `1 / sqrt x`. -/
def inversesqrt (m : MathFns α) (x : α) : α :=
  1 / m.sqrt x

/-! ## Vectors and matrices (GLM) -/

/-- Three-component vector `glm::vec3`. -/
structure Vec3 (α : Type) where
  x : α
  y : α
  z : α

/-- Four-component vector `glm::vec4`. -/
structure Vec4 (α : Type) where
  x : α
  y : α
  z : α
  w : α

/-- Column-major 4x4 matrix `glm::mat4`: `c0 .. c3` are the columns, so the
GLM entry `M[i][j]` is component `j` of column `i`. -/
structure Mat4 (α : Type) where
  c0 : Vec4 α
  c1 : Vec4 α
  c2 : Vec4 α
  c3 : Vec4 α

instance : Add (Vec3 α) := ⟨fun a b => ⟨a.x + b.x, a.y + b.y, a.z + b.z⟩⟩

instance : Sub (Vec3 α) := ⟨fun a b => ⟨a.x - b.x, a.y - b.y, a.z - b.z⟩⟩

instance : Neg (Vec3 α) := ⟨fun a => ⟨-a.x, -a.y, -a.z⟩⟩

/-- Vector times scalar, `v * s`. -/
instance : HMul (Vec3 α) α (Vec3 α) := ⟨fun a s => ⟨a.x * s, a.y * s, a.z * s⟩⟩

/-- Dot product `glm::dot`. -/
def dot (a b : Vec3 α) : α :=
  a.x * b.x + a.y * b.y + a.z * b.z

/-- Cross product `glm::cross`. -/
def cross (a b : Vec3 α) : Vec3 α :=
  ⟨a.y * b.z - b.y * a.z, a.z * b.x - b.z * a.x, a.x * b.y - b.x * a.y⟩

/-- Euclidean length `glm::length`: `sqrt (dot v v)`. -/
def length (m : MathFns α) (v : Vec3 α) : α :=
  m.sqrt (dot v v)

/-- Normalisation `glm::normalize`: `v * inversesqrt (dot v v)`. -/
def normalize (m : MathFns α) (v : Vec3 α) : Vec3 α :=
  v * inversesqrt m (dot v v)

/-- View matrix `glm::lookAt` (right-handed, the GLM default). -/
def lookAt (m : MathFns α) (eye center up : Vec3 α) : Mat4 α :=
  let f := normalize m (center - eye)
  let s := normalize m (cross f up)
  let u := cross s f
  { c0 := ⟨s.x, u.x, -f.x, 0⟩
    c1 := ⟨s.y, u.y, -f.y, 0⟩
    c2 := ⟨s.z, u.z, -f.z, 0⟩
    c3 := ⟨-dot s eye, -dot u eye, dot f eye, 1⟩ }

/-! ## The camera -/

/-- Possible options for camera movement (`enum Camera_Movement`). -/
inductive Camera_Movement where
  | FORWARD
  | BACKWARD
  | LEFT
  | RIGHT
  | UPWARD
  | DOWNWARD
  deriving DecidableEq, Repr

open Camera_Movement

/-- Default yaw. -/
def YAW : α := -90

/-- Default pitch. -/
def PITCH : α := 0

/-- Default movement speed. -/
def SPEED : α := 2.5

/-- Default mouse sensitivity. -/
def SENSITIVITY : α := 0.1

/-- Default zoom. -/
def ZOOM : α := 45

/-- The data members of `class Camera`, in declaration order. -/
structure Camera (α : Type) where
  Position : Vec3 α
  Front : Vec3 α
  Up : Vec3 α
  Right : Vec3 α
  WorldUp : Vec3 α
  OrthoWorldUp : Vec3 α
  Yaw : α
  Pitch : α
  MovementSpeed : α
  MouseSensitivity : α
  Zoom : α

/-- Private method `Camera::updateCameraVectors`.  The argument `ortho` is the
process-wide flag `ortho`, which the method reads. -/
def Camera.updateCameraVectors (m : MathFns α) (ortho : Bool) (c : Camera α) : Camera α :=
  let front : Vec3 α :=
    ⟨m.cos (radians m c.Yaw) * m.cos (radians m c.Pitch),
     m.sin (radians m c.Pitch),
     m.sin (radians m c.Yaw) * m.cos (radians m c.Pitch)⟩
  let c1 := { c with Front := normalize m front }
  let c2 :=
    if ortho then { c1 with Right := normalize m (cross c1.Front c1.OrthoWorldUp) }
    else { c1 with Right := normalize m (cross c1.Front c1.WorldUp) }
  { c2 with Up := normalize m (cross c2.Right c2.Front) }

/-- Constructor with vectors, `Camera::Camera(position, up, yaw, pitch)`.  The
member initialisers set `Front`, `MovementSpeed`, `MouseSensitivity`, `Zoom`;
`Up` and `Right` are only given a value by the closing `updateCameraVectors`,
so their value before it (here the zero vector) is never observed. -/
def Camera.Construct (m : MathFns α) (ortho : Bool)
    (position up : Vec3 α) (yaw pitch : α) : Camera α :=
  Camera.updateCameraVectors m ortho
    { Position := position
      Front := ⟨0, 0, -1⟩
      Up := ⟨0, 0, 0⟩
      Right := ⟨0, 0, 0⟩
      WorldUp := up
      OrthoWorldUp := -up
      Yaw := yaw
      Pitch := pitch
      MovementSpeed := SPEED
      MouseSensitivity := SENSITIVITY
      Zoom := ZOOM }

/-- Method `Camera::GetViewMatrix(bool ortho)`: the matrix returned and the
camera afterwards.  The parameter `orthoArg` hides the process-wide flag only
inside this body; `updateCameraVectors` still reads the process-wide flag
`ortho`. -/
def Camera.GetViewMatrix (m : MathFns α) (ortho : Bool) (c : Camera α) (orthoArg : Bool) :
    Mat4 α × Camera α :=
  if orthoArg then
    let c1 := Camera.updateCameraVectors m ortho c
    (lookAt m c1.Position (c1.Position + c1.Front) c1.Up, c1)
  else
    (lookAt m c.Position (c.Position + c.Front) c.Up, c)

/-- Method `Camera::ProcessKeyboard`; `ortho` is the process-wide flag. -/
def Camera.ProcessKeyboard (ortho : Bool) (c : Camera α) (direction : Camera_Movement)
    (deltaTime : α) : Camera α :=
  let velocity := c.MovementSpeed * deltaTime
  let c1 := if direction = FORWARD then
      { c with Position := c.Position + c.Front * velocity } else c
  let c2 := if direction = BACKWARD then
      { c1 with Position := c1.Position - c1.Front * velocity } else c1
  let c3 := if direction = LEFT then
      { c2 with Position := c2.Position - c2.Right * velocity } else c2
  let c4 := if direction = RIGHT then
      { c3 with Position := c3.Position + c3.Right * velocity } else c3
  let c5 := if direction = UPWARD then
      (if ortho then { c4 with Position := c4.Position - c4.Up * velocity }
       else { c4 with Position := c4.Position + c4.Up * velocity }) else c4
  if direction = DOWNWARD then
    (if ortho then { c5 with Position := c5.Position + c5.Up * velocity }
     else { c5 with Position := c5.Position - c5.Up * velocity })
  else c5

/-- Method `Camera::ProcessMouseMovement`; `ortho` is the process-wide flag
read by the closing `updateCameraVectors`. -/
def Camera.ProcessMouseMovement (m : MathFns α) (ortho : Bool) (c : Camera α)
    (xoffset yoffset : α) (constrainPitch : Bool) : Camera α :=
  let xoffset := xoffset * c.MouseSensitivity
  let yoffset := yoffset * c.MouseSensitivity
  let c1 := { c with Yaw := c.Yaw + xoffset }
  let c2 := { c1 with Pitch := c1.Pitch + yoffset }
  let c3 :=
    if constrainPitch then
      let d1 := if c2.Pitch > 89 then { c2 with Pitch := 89 } else c2
      if d1.Pitch < -89 then { d1 with Pitch := -89 } else d1
    else c2
  Camera.updateCameraVectors m ortho c3

/-- Method `Camera::ProcessMouseScroll`. -/
def Camera.ProcessMouseScroll (c : Camera α) (yoffset : α) : Camera α :=
  let c1 := { c with MovementSpeed := c.MovementSpeed + yoffset }
  let c2 := if c1.MovementSpeed < 1 then { c1 with MovementSpeed := 1 } else c1
  if c2.MovementSpeed > 50 then { c2 with MovementSpeed := 50 } else c2

/-! ## The program around the camera -/

/-- GLFW action code `GLFW_RELEASE`. -/
def GLFW_RELEASE : Int := 0

/-- GLFW action code `GLFW_PRESS`. -/
def GLFW_PRESS : Int := 1

/-- GLFW key code `GLFW_KEY_P`. -/
def GLFW_KEY_P : Int := 80

/-- Callback `key_callback`, as a function of the process-wide flag `ortho`:
the value of the flag after the callback. -/
def key_callback (ortho : Bool) (key _scancode action _mods : Int) : Bool :=
  if action = GLFW_RELEASE then ortho
  else if key = GLFW_KEY_P then !ortho
  else ortho

/-- The mutable globals the camera code touches: the `camera` object and the
flag `ortho`. -/
structure Globals (α : Type) where
  camera : Camera α
  ortho : Bool

/-- The globals after static initialisation: `bool ortho = false` and
`Camera camera(glm::vec3(0.0f, 0.0f, 4.0f))`, the other constructor arguments
taking their defaults. -/
def Globals.initial (m : MathFns α) : Globals α :=
  { camera := Camera.Construct m false ⟨0, 0, 4⟩ ⟨0, 1, 0⟩ YAW PITCH
    ortho := false }

/-- The events that reach the camera: a held movement key in `UProcessInput`,
a cursor move (`mouse_callback`), a scroll (`scroll_callback`), a press of the
key P (`key_callback`), and the per-frame query
`camera.GetViewMatrix(ortho)` of the render loop. -/
inductive Event (α : Type) where
  | move (direction : Camera_Movement) (deltaTime : α)
  | rotate (xoffset yoffset : α)
  | scroll (yoffset : α)
  | toggle
  | view

/-- Effect of one event on the globals. -/
def Globals.step (m : MathFns α) (g : Globals α) : Event α → Globals α
  | .move direction deltaTime =>
      { g with camera := g.camera.ProcessKeyboard g.ortho direction deltaTime }
  | .rotate xoffset yoffset =>
      { g with camera := g.camera.ProcessMouseMovement m g.ortho xoffset yoffset true }
  | .scroll yoffset =>
      { g with camera := g.camera.ProcessMouseScroll yoffset }
  | .toggle =>
      { g with ortho := key_callback g.ortho GLFW_KEY_P 0 GLFW_PRESS 0 }
  | .view =>
      { g with camera := (g.camera.GetViewMatrix m g.ortho g.ortho).2 }

/-- Effect of a sequence of events, oldest first. -/
def Globals.run (m : MathFns α) (g : Globals α) (es : List (Event α)) : Globals α :=
  es.foldl (Globals.step m) g

/-- The render loop's query `camera.GetViewMatrix(ortho)`: the view matrix of
the current frame. -/
def Globals.viewMatrix (m : MathFns α) (g : Globals α) : Mat4 α :=
  (g.camera.GetViewMatrix m g.ortho g.ortho).1

/-- The basis `updateCameraVectors` derives from a yaw, a pitch and a
reference up vector, as the triple (front, right, up). -/
def derivedBasis (m : MathFns α) (yaw pitch : α) (refUp : Vec3 α) :
    Vec3 α × Vec3 α × Vec3 α :=
  let front := normalize m
    ⟨m.cos (radians m yaw) * m.cos (radians m pitch),
     m.sin (radians m pitch),
     m.sin (radians m yaw) * m.cos (radians m pitch)⟩
  let right := normalize m (cross front refUp)
  let up := normalize m (cross right front)
  (front, right, up)

/-- The camera as static initialisation leaves it, written out field by
field (see `initial_camera`). -/
def Camera.atRest : Camera α :=
  { Position := ⟨0, 0, 4⟩
    Front := ⟨0, 0, -1⟩
    Up := ⟨0, 1, 0⟩
    Right := ⟨1, 0, 0⟩
    WorldUp := ⟨0, 1, 0⟩
    OrthoWorldUp := ⟨0, -1, 0⟩
    Yaw := -90
    Pitch := 0
    MovementSpeed := 2.5
    MouseSensitivity := 0.1
    Zoom := 45 }

/-- The camera at rest with the basis derived under the orthographic flag:
the reference up vector is `(0, -1, 0)`, which negates `Right` and `Up`
(see `atRest_update`). -/
def Camera.atRestOrtho : Camera α :=
  { (Camera.atRest : Camera α) with Up := ⟨0, -1, 0⟩, Right := ⟨-1, 0, 0⟩ }

/-- The globals after the key P is pressed, one frame is rendered, and the key
P is pressed again, starting from static initialisation. -/
def Globals.afterToggleBack (m : MathFns α) : Globals α :=
  (Globals.initial m).run m [Event.toggle, Event.view, Event.toggle]

/-! ## Matrices and projections -/

/-- Matrix times column vector, the GLM `mat4 * vec4`: the combination of the
columns of `M` with the components of `v` as weights. -/
def Mat4.mulVec (M : Mat4 α) (v : Vec4 α) : Vec4 α :=
  ⟨(M.c0.x * v.x + M.c1.x * v.y) + (M.c2.x * v.z + M.c3.x * v.w),
   (M.c0.y * v.x + M.c1.y * v.y) + (M.c2.y * v.z + M.c3.y * v.w),
   (M.c0.z * v.x + M.c1.z * v.y) + (M.c2.z * v.z + M.c3.z * v.w),
   (M.c0.w * v.x + M.c1.w * v.y) + (M.c2.w * v.z + M.c3.w * v.w)⟩

/-- Matrix product, the GLM `mat4 * mat4`: column `j` of the product is `A`
applied to column `j` of `B`. -/
def Mat4.mul (A B : Mat4 α) : Mat4 α :=
  ⟨A.mulVec B.c0, A.mulVec B.c1, A.mulVec B.c2, A.mulVec B.c3⟩

/-- First row of the upper-left 3x3 block. -/
def Mat4.rot0 (M : Mat4 α) : Vec3 α := ⟨M.c0.x, M.c1.x, M.c2.x⟩

/-- Second row of the upper-left 3x3 block. -/
def Mat4.rot1 (M : Mat4 α) : Vec3 α := ⟨M.c0.y, M.c1.y, M.c2.y⟩

/-- Third row of the upper-left 3x3 block. -/
def Mat4.rot2 (M : Mat4 α) : Vec3 α := ⟨M.c0.z, M.c1.z, M.c2.z⟩

/-- Last row of the matrix. -/
def Mat4.row3 (M : Mat4 α) : Vec4 α := ⟨M.c0.w, M.c1.w, M.c2.w, M.c3.w⟩

/-- A point of space as a homogeneous vector, `vec4(position, 1.0f)` in the
vertex shader. -/
def Vec3.point (p : Vec3 α) : Vec4 α := ⟨p.x, p.y, p.z, 1⟩

/-- Tangent `tan` of the C++ runtime; over exact arithmetic the quotient of
sine and cosine. -/
def tan (m : MathFns α) (x : α) : α :=
  m.sin x / m.cos x

/-- Orthographic projection `glm::ortho(left, right, bottom, top, zNear, zFar)`
(right-handed, depth range -1 to 1, the GLM default): the identity matrix with
the three scales and the three translations overwritten. -/
def glm_ortho (left right bottom top zNear zFar : α) : Mat4 α :=
  { c0 := ⟨2 / (right - left), 0, 0, 0⟩
    c1 := ⟨0, 2 / (top - bottom), 0, 0⟩
    c2 := ⟨0, 0, -2 / (zFar - zNear), 0⟩
    c3 := ⟨-(right + left) / (right - left), -(top + bottom) / (top - bottom),
           -(zFar + zNear) / (zFar - zNear), 1⟩ }

/-- Perspective projection `glm::perspective(fovy, aspect, zNear, zFar)`
(right-handed, depth range -1 to 1, the GLM default).  The angle `fovy` is in
radians, as all angles of the GLM version the program is written against:
its calls `glm::rotate(-3.141592f * 0.5f, ...)` pass quarter turns in
radians. -/
def glm_perspective (m : MathFns α) (fovy aspect zNear zFar : α) : Mat4 α :=
  let tanHalfFovy := tan m (fovy / 2)
  { c0 := ⟨1 / (aspect * tanHalfFovy), 0, 0, 0⟩
    c1 := ⟨0, 1 / tanHalfFovy, 0, 0⟩
    c2 := ⟨0, 0, -(zFar + zNear) / (zFar - zNear), -1⟩
    c3 := ⟨0, 0, -(2 * zFar * zNear) / (zFar - zNear), 0⟩ }

/-- Window width. -/
def WINDOW_WIDTH : Int := 800

/-- Window height. -/
def WINDOW_HEIGHT : Int := 600

/-- The matrix `projection` the render loop of `Project2.cpp` builds each
frame, by the process-wide flag `ortho`. -/
def projection (m : MathFns α) (ortho : Bool) : Mat4 α :=
  if ortho then
    let scale : α := 200
    let scaledWidth : α := (WINDOW_WIDTH : α) / scale
    let scaledHeight : α := (WINDOW_HEIGHT : α) / scale
    glm_ortho (-scaledWidth) scaledWidth scaledHeight (-scaledHeight) (-4) 10
  else
    glm_perspective m 45 ((WINDOW_WIDTH : α) / (WINDOW_HEIGHT : α)) 0.1 100

/-- The matrix `projection` the render loop of `Chest3D.cpp` builds each frame
(its window is 800 by 600 as well). -/
def projectionChest3D (m : MathFns α) : Mat4 α :=
  glm_perspective m 45 ((WINDOW_WIDTH : α) / (WINDOW_HEIGHT : α)) 0.1 100

/-- The standard perspective matrix for a vertical field of view given in
degrees, as the specification words it (section 4.2 and section 8): entries
`1 / (aspect * tan (fov / 2))`, `1 / tan (fov / 2)`,
`-(far + near) / (far - near)`, `-1`, `-2 * far * near / (far - near)`, all
others zero. -/
def perspectiveClosedForm (m : MathFns α) (fovDegrees aspect near far : α) : Mat4 α :=
  { c0 := ⟨1 / (aspect * tan m (radians m (fovDegrees / 2))), 0, 0, 0⟩
    c1 := ⟨0, 1 / tan m (radians m (fovDegrees / 2)), 0, 0⟩
    c2 := ⟨0, 0, -(far + near) / (far - near), -1⟩
    c3 := ⟨0, 0, -2 * far * near / (far - near), 0⟩ }

/-- Whether an event is a press of the key P. -/
def Event.isToggle : Event α → Bool
  | .toggle => true
  | _ => false

/-- The globals with a camera built by the constructor from arbitrary
arguments, under an arbitrary value of the flag. -/
def Globals.constructed (m : MathFns α) (ortho : Bool) (position up : Vec3 α)
    (yaw pitch : α) : Globals α :=
  { camera := Camera.Construct m ortho position up yaw pitch
    ortho := ortho }

/-- GLFW action code `GLFW_REPEAT`. -/
def GLFW_REPEAT : Int := 2

/-! ## Image flipping

The image is the list of its bytes; a read or write outside the buffer, which
is undefined in the source, makes the model return `none`.  Indices are
natural numbers: for a buffer of `width * height * channels` bytes no index
the loops compute exceeds the size of the buffer. -/

/-- The body of the inner loop of `flipImageVertically`: exchange the bytes
at `index1` and `index2`. -/
def swapBytes (image : List Nat) (index1 index2 : Nat) : Option (List Nat) :=
  match image[index1]?, image[index2]? with
  | some tmp, some other => some ((image.set index1 other).set index2 tmp)
  | _, _ => none

/-- The inner loop of `flipImageVertically`, `for (i = width * channels; i > 0; --i)`:
`i` iterations, each exchanging one pair of bytes and advancing both
indices. -/
def flipImageVertically_inner : Nat → List Nat → Nat → Nat → Option (List Nat)
  | 0, image, _, _ => some image
  | i + 1, image, index1, index2 =>
      (swapBytes image index1 index2).bind fun image1 =>
        flipImageVertically_inner i image1 (index1 + 1) (index2 + 1)

/-- The outer loop of `flipImageVertically`, `for (j = 0; j < height / 2; ++j)`,
with `n` iterations left to run from row `j`. -/
def flipImageVertically_outer (width height channels : Nat) :
    Nat → Nat → List Nat → Option (List Nat)
  | 0, _, image => some image
  | n + 1, j, image =>
      (flipImageVertically_inner (width * channels) image (j * width * channels)
          ((height - 1 - j) * width * channels)).bind fun image1 =>
        flipImageVertically_outer width height channels n (j + 1) image1

/-- Function `flipImageVertically(image, width, height, channels)`: the buffer
after the call. -/
def flipImageVertically (image : List Nat) (width height channels : Nat) :
    Option (List Nat) :=
  flipImageVertically_outer width height channels (height / 2) 0 image

/-! ## Meshes -/

/-- Size of a `GLfloat` in bytes. -/
def sizeofFloat : Nat := 4

/-- Size of a `GLushort` in bytes. -/
def sizeofGLushort : Nat := 2

/-- Number of position coordinates per vertex. -/
def floatsPerVertex : Nat := 3

/-- Number of colour components per vertex. -/
def floatsPerColor : Nat := 4

/-- Number of texture coordinates per vertex. -/
def floatsPerTex : Nat := 2

/-- The stride of the vertex attributes, in bytes:
`sizeof(float) * (floatsPerVertex + floatsPerColor + floatsPerTex)`. -/
def stride : Nat := sizeofFloat * (floatsPerVertex + floatsPerColor + floatsPerTex)

/-- The value stored in `mesh.nIndices`:
`sizeof(indices) / sizeof(indices[0])`. -/
def nIndices (indices : List Nat) : Nat :=
  (sizeofGLushort * indices.length) / sizeofGLushort

/-- Array `chestBodyV` of `UCreateChestBodyMesh` in `Project2.cpp`. -/
def chestBodyV : List ℚ :=
  [ 0.5,  0.25, -0.25,   0.9, 0.6, 0.2, 1.0,    1.0, 1.0,
    0.5, -0.25, -0.25,   0.7, 0.4, 0.0, 1.0,    1.0, 0.0,
   -0.5, -0.25, -0.25,   0.7, 0.4, 0.0, 1.0,    0.5, 0.0,
   -0.5,  0.25, -0.25,   0.9, 0.6, 0.2, 1.0,    0.5, 1.0,
    0.5,  0.25,  0.25,   0.9, 0.6, 0.2, 1.0,    0.5, 1.0,
    0.5, -0.25,  0.25,   0.7, 0.4, 0.0, 1.0,    0.5, 0.0,
   -0.5, -0.25,  0.25,   0.7, 0.4, 0.0, 1.0,    0.0, 0.0,
   -0.5,  0.25,  0.25,   0.9, 0.6, 0.2, 1.0,    0.0, 1.0 ]

/-- Array `chestBodyI` of `UCreateChestBodyMesh` in `Project2.cpp`. -/
def chestBodyI : List Nat :=
  [ 0, 1, 2, 0, 2, 3,
    0, 1, 5, 0, 4, 5,
    0, 3, 7, 0, 4, 7,
    1, 2, 6, 1, 5, 6,
    2, 3, 7, 2, 6, 7,
    4, 5, 6, 4, 6, 7 ]

/-- Array `chestDecorV` of `UCreateChestDecorMesh` in `Project2.cpp`. -/
def chestDecorV : List ℚ :=
  [ 0.51,  0.05, -0.251,   0.35, 0.30, 0.28, 1.0,    1.0, 1.0,
    0.51, -0.05, -0.251,   0.35, 0.30, 0.28, 1.0,    1.0, 0.0,
   -0.51, -0.05, -0.251,   0.35, 0.30, 0.28, 1.0,    0.5, 0.0,
   -0.51,  0.05, -0.251,   0.35, 0.30, 0.28, 1.0,    0.5, 1.0,
    0.51,  0.05,  0.251,   0.35, 0.30, 0.28, 1.0,    0.5, 1.0,
    0.51, -0.05,  0.251,   0.35, 0.30, 0.28, 1.0,    0.5, 0.0,
   -0.51, -0.05,  0.251,   0.35, 0.30, 0.28, 1.0,    0.0, 0.0,
   -0.51,  0.05,  0.251,   0.35, 0.30, 0.28, 1.0,    0.0, 1.0 ]

/-- Array `chestDecorI` of `UCreateChestDecorMesh` in `Project2.cpp`. -/
def chestDecorI : List Nat :=
  [ 0, 1, 2, 0, 2, 3,
    0, 1, 5, 0, 4, 5,
    0, 3, 7, 0, 4, 7,
    1, 2, 6, 1, 5, 6,
    2, 3, 7, 2, 6, 7,
    4, 5, 6, 4, 6, 7 ]

/-- Array `planeV` of `UCreatePlaneMesh` in `Project2.cpp`. -/
def planeV : List ℚ :=
  [ 0.5, 0.0, -0.5,   1.0, 1.0, 1.0, 1.0,  1.0, 1.0,
    0.5, 0.0,  0.5,   1.0, 1.0, 1.0, 1.0,  1.0, 0.0,
   -0.5, 0.0,  0.5,   1.0, 1.0, 1.0, 1.0,  0.0, 0.0,
   -0.5, 0.0, -0.5,   1.0, 1.0, 1.0, 1.0,  0.0, 1.0 ]

/-- Array `planeI` of `UCreatePlaneMesh` in `Project2.cpp`. -/
def planeI : List Nat :=
  [ 0, 1, 2, 0, 2, 3 ]

/-- Array `chestBodyV` of `UCreateChestBodyMesh` in `Chest3D.cpp`. -/
def Chest3D.chestBodyV : List ℚ :=
  [ 0.5,  0.25, -0.25,   0.9, 0.6, 0.2, 1.0,    1.0, 1.0,
    0.5, -0.25, -0.25,   0.7, 0.4, 0.0, 1.0,    1.0, 0.0,
   -0.5, -0.25, -0.25,   0.7, 0.4, 0.0, 1.0,    0.0, 0.0,
   -0.5,  0.25, -0.25,   0.9, 0.6, 0.2, 1.0,    0.0, 1.0,
    0.5,  0.25,  0.25,   0.9, 0.6, 0.2, 1.0,    1.0, 1.0,
    0.5, -0.25,  0.25,   0.7, 0.4, 0.0, 1.0,    1.0, 0.0,
   -0.5, -0.25,  0.25,   0.7, 0.4, 0.0, 1.0,    0.0, 0.0,
   -0.5,  0.25,  0.25,   0.9, 0.6, 0.2, 1.0,    0.0, 1.0 ]

/-- Array `chestBodyI` of `UCreateChestBodyMesh` in `Chest3D.cpp`. -/
def Chest3D.chestBodyI : List Nat :=
  [ 0, 1, 2, 0, 2, 3,
    0, 1, 5, 0, 4, 5,
    0, 3, 7, 0, 4, 7,
    1, 2, 6, 1, 5, 6,
    2, 3, 7, 2, 6, 7,
    4, 5, 6, 4, 6, 7 ]

/-- Array `chestDecorV` of `UCreateChestDecorMesh` in `Chest3D.cpp`. -/
def Chest3D.chestDecorV : List ℚ :=
  [ 0.51,  0.05, -0.251,   0.35, 0.30, 0.28, 1.0,    1.0, 1.0,
    0.51, -0.05, -0.251,   0.35, 0.30, 0.28, 1.0,    1.0, 1.0,
   -0.51, -0.05, -0.251,   0.35, 0.30, 0.28, 1.0,    1.0, 1.0,
   -0.51,  0.05, -0.251,   0.35, 0.30, 0.28, 1.0,    1.0, 1.0,
    0.51,  0.05,  0.251,   0.35, 0.30, 0.28, 1.0,    1.0, 1.0,
    0.51, -0.05,  0.251,   0.35, 0.30, 0.28, 1.0,    1.0, 1.0,
   -0.51, -0.05,  0.251,   0.35, 0.30, 0.28, 1.0,    1.0, 1.0,
   -0.51,  0.05,  0.251,   0.35, 0.30, 0.28, 1.0,    1.0, 1.0 ]

/-- Array `chestDecorI` of `UCreateChestDecorMesh` in `Chest3D.cpp`. -/
def Chest3D.chestDecorI : List Nat :=
  [ 0, 1, 2, 0, 2, 3,
    0, 1, 5, 0, 4, 5,
    0, 3, 7, 0, 4, 7,
    1, 2, 6, 1, 5, 6,
    2, 3, 7, 2, 6, 7,
    4, 5, 6, 4, 6, 7 ]

/-- A mesh is index-safe for `count` vertices: the vertex array holds
`floatsPerVertex + floatsPerColor + floatsPerTex` floats for each of the
`count` vertices, every index is below `count`, and the last byte any index
makes a draw call read (the end of the texture attribute of its vertex) lies
inside the vertex buffer. -/
def indexSafe (vertices : List ℚ) (indices : List Nat) (count : Nat) : Prop :=
  vertices.length = (floatsPerVertex + floatsPerColor + floatsPerTex) * count
    ∧ (∀ i ∈ indices, i < count)
    ∧ (∀ i ∈ indices,
        i * stride + sizeofFloat * (floatsPerVertex + floatsPerColor)
          + sizeofFloat * floatsPerTex ≤ sizeofFloat * vertices.length)

/-! ## Elementary facts about the vector operations -/

theorem Vec3.ext_iff3 (a b : Vec3 α) : a = b ↔ a.x = b.x ∧ a.y = b.y ∧ a.z = b.z := by
  cases a; cases b; simp

@[simp] theorem Vec3.add_x (a b : Vec3 α) : (a + b).x = a.x + b.x := rfl

@[simp] theorem Vec3.add_y (a b : Vec3 α) : (a + b).y = a.y + b.y := rfl

@[simp] theorem Vec3.add_z (a b : Vec3 α) : (a + b).z = a.z + b.z := rfl

@[simp] theorem Vec3.sub_x (a b : Vec3 α) : (a - b).x = a.x - b.x := rfl

@[simp] theorem Vec3.sub_y (a b : Vec3 α) : (a - b).y = a.y - b.y := rfl

@[simp] theorem Vec3.sub_z (a b : Vec3 α) : (a - b).z = a.z - b.z := rfl

@[simp] theorem Vec3.neg_x (a : Vec3 α) : (-a).x = -a.x := rfl

@[simp] theorem Vec3.neg_y (a : Vec3 α) : (-a).y = -a.y := rfl

@[simp] theorem Vec3.neg_z (a : Vec3 α) : (-a).z = -a.z := rfl

@[simp] theorem Vec3.mul_x (a : Vec3 α) (s : α) : (a * s).x = a.x * s := rfl

@[simp] theorem Vec3.mul_y (a : Vec3 α) (s : α) : (a * s).y = a.y * s := rfl

@[simp] theorem Vec3.mul_z (a : Vec3 α) (s : α) : (a * s).z = a.z * s := rfl

theorem Vec3.add_mul_sub_mul (p f : Vec3 α) (v : α) : p + f * v - f * v = p := by
  rw [Vec3.ext_iff3]; simp

/-- The recomputation writes the derived basis of the current yaw and pitch,
for the reference up vector selected by the process-wide flag, and nothing
else. -/
theorem Camera.updateCameraVectors_eq (m : MathFns α) (ortho : Bool) (c : Camera α) :
    c.updateCameraVectors m ortho =
      { c with
        Front := (derivedBasis m c.Yaw c.Pitch (if ortho then c.OrthoWorldUp else c.WorldUp)).1
        Right := (derivedBasis m c.Yaw c.Pitch (if ortho then c.OrthoWorldUp else c.WorldUp)).2.1
        Up := (derivedBasis m c.Yaw c.Pitch (if ortho then c.OrthoWorldUp else c.WorldUp)).2.2 } := by
  cases ortho <;> simp [Camera.updateCameraVectors, derivedBasis]

/-- Recomputing twice under one flag is the same as recomputing once. -/
theorem Camera.updateCameraVectors_idem (m : MathFns α) (ortho : Bool) (c : Camera α) :
    (c.updateCameraVectors m ortho).updateCameraVectors m ortho
      = c.updateCameraVectors m ortho := by
  cases ortho <;> simp [Camera.updateCameraVectors]

/-- Position after `ProcessKeyboard UPWARD`, by mode flag. -/
theorem Camera.ProcessKeyboard_upward (c : Camera α) (deltaTime : α) (ortho : Bool) :
    (c.ProcessKeyboard ortho UPWARD deltaTime).Position
      = if ortho then c.Position - c.Up * (c.MovementSpeed * deltaTime)
        else c.Position + c.Up * (c.MovementSpeed * deltaTime) := by
  cases ortho <;> simp [Camera.ProcessKeyboard]

/-! ## Rotate, AdjustSpeed, Move -/

/-- C2: after `ProcessMouseMovement` with `constrainPitch = true` the stored
pitch is `min 89 (max (-89) (old pitch + sensitivity * yoffset))`, hence lies
in `[-89, 89]`; an offset driving the unclamped pitch to 200 stores exactly 89
and one driving it to -200 stores exactly -89. -/
theorem ProcessMouseMovement_pitch_clamp (m : MathFns α) (ortho : Bool) (c : Camera α)
    (xoffset yoffset : α) :
    (c.ProcessMouseMovement m ortho xoffset yoffset true).Pitch
        = min 89 (max (-89) (c.Pitch + c.MouseSensitivity * yoffset))
      ∧ -89 ≤ (c.ProcessMouseMovement m ortho xoffset yoffset true).Pitch
      ∧ (c.ProcessMouseMovement m ortho xoffset yoffset true).Pitch ≤ 89
      ∧ (c.Pitch + c.MouseSensitivity * yoffset = 200 →
          (c.ProcessMouseMovement m ortho xoffset yoffset true).Pitch = 89)
      ∧ (c.Pitch + c.MouseSensitivity * yoffset = -200 →
          (c.ProcessMouseMovement m ortho xoffset yoffset true).Pitch = -89) := by
  have key : (c.ProcessMouseMovement m ortho xoffset yoffset true).Pitch
      = min 89 (max (-89) (c.Pitch + c.MouseSensitivity * yoffset)) := by
    rw [mul_comm c.MouseSensitivity yoffset]
    simp only [Camera.ProcessMouseMovement, Camera.updateCameraVectors_eq, if_true]
    by_cases h1 : c.Pitch + yoffset * c.MouseSensitivity > 89
    · have h2 : ¬ ((89 : α) < -89) := by norm_num
      have h3 : (-89 : α) ≤ c.Pitch + yoffset * c.MouseSensitivity := by
        have : (-89 : α) ≤ 89 := by norm_num
        exact le_trans this (le_of_lt h1)
      simp [h1, h2, max_eq_right h3, min_eq_left (le_of_lt h1)]
    · have h1' : c.Pitch + yoffset * c.MouseSensitivity ≤ 89 := not_lt.mp h1
      by_cases h2 : c.Pitch + yoffset * c.MouseSensitivity < -89
      · have h4 : (-89 : α) ≤ 89 := by norm_num
        simp [h1, h2, max_eq_left (le_of_lt h2), min_eq_right h4]
      · have h2' : -89 ≤ c.Pitch + yoffset * c.MouseSensitivity := not_lt.mp h2
        simp [h1, h2, max_eq_right h2', min_eq_right h1']
  have h89 : (-89 : α) ≤ 89 := by norm_num
  refine ⟨key, ?_, ?_, ?_, ?_⟩
  · rw [key]; exact le_min h89 (le_max_left _ _)
  · rw [key]; exact min_le_left _ _
  · intro h
    rw [key, h]
    have : max (-89 : α) 200 = 200 := max_eq_right (by norm_num)
    rw [this]; exact min_eq_left (by norm_num)
  · intro h
    rw [key, h]
    have : max (-89 : α) (-200) = -89 := max_eq_left (by norm_num)
    rw [this]; exact min_eq_right (by norm_num)

/-- C3: `ProcessMouseScroll` sets the movement speed to
`min 50 (max 1 (old speed + yoffset))` and changes no other field; on a freshly
constructed camera (speed 2.5) a scroll of +1000 yields exactly 50 and a scroll
of -1000 yields exactly 1. -/
theorem ProcessMouseScroll_speed_clamp (c : Camera α) (yoffset : α) :
    c.ProcessMouseScroll yoffset
        = { c with MovementSpeed := min 50 (max 1 (c.MovementSpeed + yoffset)) }
      ∧ (∀ (m : MathFns α) (ortho : Bool) (position up : Vec3 α) (yaw pitch : α),
          ((Camera.Construct m ortho position up yaw pitch).ProcessMouseScroll 1000).MovementSpeed
              = 50
          ∧ ((Camera.Construct m ortho position up yaw pitch).ProcessMouseScroll
                (-1000)).MovementSpeed = 1) := by
  have key : ∀ (d : Camera α) (y : α), d.ProcessMouseScroll y
      = { d with MovementSpeed := min 50 (max 1 (d.MovementSpeed + y)) } := by
    intro d y
    simp only [Camera.ProcessMouseScroll]
    by_cases h1 : d.MovementSpeed + y < 1
    · have h2 : ¬ ((1 : α) > 50) := by norm_num
      have h3 : (1 : α) ≤ 50 := by norm_num
      simp [h1, h2, max_eq_left (le_of_lt h1), min_eq_right h3]
    · have h1' : 1 ≤ d.MovementSpeed + y := not_lt.mp h1
      by_cases h2 : d.MovementSpeed + y > 50
      · simp [h1, h2, max_eq_right h1', min_eq_left (le_of_lt h2)]
      · have h2' : d.MovementSpeed + y ≤ 50 := not_lt.mp h2
        simp [h1, h2, max_eq_right h1', min_eq_right h2']
  refine ⟨key c yoffset, ?_⟩
  intro m ortho position up yaw pitch
  have hs : (Camera.Construct m ortho position up yaw pitch).MovementSpeed = 2.5 := by
    simp [Camera.Construct, Camera.updateCameraVectors_eq, SPEED]
  constructor
  · rw [key, hs]
    have h1 : max (1 : α) (2.5 + 1000) = 2.5 + 1000 := max_eq_right (by norm_num)
    show min (50 : α) (max 1 (2.5 + 1000)) = 50
    rw [h1]; exact min_eq_left (by norm_num)
  · rw [key, hs]
    have h1 : max (1 : α) (2.5 + -1000) = 1 := max_eq_left (by norm_num)
    show min (50 : α) (max 1 (2.5 + -1000)) = 1
    rw [h1]; exact min_eq_right (by norm_num)

/-- C4: with `v = MovementSpeed * deltaTime`, `ProcessKeyboard` moves the
position to `Position + Front * v` (FORWARD), `Position - Front * v`
(BACKWARD), `Position - Right * v` (LEFT), `Position + Right * v` (RIGHT);
UPWARD gives `Position + Up * v` when the flag is perspective and
`Position - Up * v` when it is orthographic, and DOWNWARD is the mirror; the
vectors are the cached ones. -/
theorem ProcessKeyboard_position (c : Camera α) (deltaTime : α) (ortho : Bool) :
    (c.ProcessKeyboard ortho FORWARD deltaTime).Position
        = c.Position + c.Front * (c.MovementSpeed * deltaTime)
      ∧ (c.ProcessKeyboard ortho BACKWARD deltaTime).Position
        = c.Position - c.Front * (c.MovementSpeed * deltaTime)
      ∧ (c.ProcessKeyboard ortho LEFT deltaTime).Position
        = c.Position - c.Right * (c.MovementSpeed * deltaTime)
      ∧ (c.ProcessKeyboard ortho RIGHT deltaTime).Position
        = c.Position + c.Right * (c.MovementSpeed * deltaTime)
      ∧ (c.ProcessKeyboard false UPWARD deltaTime).Position
        = c.Position + c.Up * (c.MovementSpeed * deltaTime)
      ∧ (c.ProcessKeyboard true UPWARD deltaTime).Position
        = c.Position - c.Up * (c.MovementSpeed * deltaTime)
      ∧ (c.ProcessKeyboard false DOWNWARD deltaTime).Position
        = c.Position - c.Up * (c.MovementSpeed * deltaTime)
      ∧ (c.ProcessKeyboard true DOWNWARD deltaTime).Position
        = c.Position + c.Up * (c.MovementSpeed * deltaTime) := by
  refine ⟨?_, ?_, ?_, ?_, ?_, ?_, ?_, ?_⟩ <;> simp [Camera.ProcessKeyboard]

/-- C6: `ProcessKeyboard FORWARD` followed by `ProcessKeyboard BACKWARD` with
the same `deltaTime` returns the camera exactly to its original state:
position and every other field (whatever the flag is at either call). -/
theorem ProcessKeyboard_forward_backward (c : Camera α) (deltaTime : α) (ortho ortho2 : Bool) :
    (c.ProcessKeyboard ortho FORWARD deltaTime).ProcessKeyboard ortho2 BACKWARD deltaTime = c := by
  cases c
  simp [Camera.ProcessKeyboard, Vec3.add_mul_sub_mul]

/-- C9: with the flag set to orthographic, two consecutive calls
`GetViewMatrix(true)` return the same matrix, and the camera after the second
call equals the camera after the first. -/
theorem GetViewMatrix_ortho_twice (m : MathFns α) (c : Camera α) :
    ((c.GetViewMatrix m true true).2.GetViewMatrix m true true).1
        = (c.GetViewMatrix m true true).1
      ∧ ((c.GetViewMatrix m true true).2.GetViewMatrix m true true).2
        = (c.GetViewMatrix m true true).2 := by
  simp [Camera.GetViewMatrix, Camera.updateCameraVectors_idem]

/-- C10: after `ProcessMouseMovement`, for either value of `constrainPitch`,
the cached basis is the recomputation formula at the new yaw and pitch and the
current flag: `Front` is the normalised spherical direction, `Right` is
`normalize (cross Front R)` with `R` the orthographic reference in
orthographic mode and `WorldUp` otherwise, `Up` is
`normalize (cross Right Front)`. -/
theorem ProcessMouseMovement_basis (m : MathFns α) (ortho : Bool) (c : Camera α)
    (xoffset yoffset : α) (constrainPitch : Bool) :
    (c.ProcessMouseMovement m ortho xoffset yoffset constrainPitch).Front
        = normalize m
            ⟨m.cos ((c.ProcessMouseMovement m ortho xoffset yoffset constrainPitch).Yaw
                  * (m.pi / 180))
               * m.cos ((c.ProcessMouseMovement m ortho xoffset yoffset constrainPitch).Pitch
                  * (m.pi / 180)),
             m.sin ((c.ProcessMouseMovement m ortho xoffset yoffset constrainPitch).Pitch
                  * (m.pi / 180)),
             m.sin ((c.ProcessMouseMovement m ortho xoffset yoffset constrainPitch).Yaw
                  * (m.pi / 180))
               * m.cos ((c.ProcessMouseMovement m ortho xoffset yoffset constrainPitch).Pitch
                  * (m.pi / 180))⟩
      ∧ (c.ProcessMouseMovement m ortho xoffset yoffset constrainPitch).Right
        = normalize m
            (cross (c.ProcessMouseMovement m ortho xoffset yoffset constrainPitch).Front
              (if ortho then
                (c.ProcessMouseMovement m ortho xoffset yoffset constrainPitch).OrthoWorldUp
               else (c.ProcessMouseMovement m ortho xoffset yoffset constrainPitch).WorldUp))
      ∧ (c.ProcessMouseMovement m ortho xoffset yoffset constrainPitch).Up
        = normalize m
            (cross (c.ProcessMouseMovement m ortho xoffset yoffset constrainPitch).Right
              (c.ProcessMouseMovement m ortho xoffset yoffset constrainPitch).Front) := by
  cases ortho <;> cases constrainPitch <;>
    simp only [Camera.ProcessMouseMovement, Camera.updateCameraVectors, radians] <;>
    simp

end Defs

/-! ## Exact real arithmetic -/

@[simp] theorem realMath_sqrt : realMath.sqrt = Real.sqrt := rfl

@[simp] theorem realMath_cos : realMath.cos = Real.cos := rfl

@[simp] theorem realMath_sin : realMath.sin = Real.sin := rfl

@[simp] theorem realMath_pi : realMath.pi = Real.pi := rfl

/-- Over the reals, normalising a vector of squared length `k ^ 2`, `k > 0`,
divides it by `k`. -/
theorem normalize_real_of_dot (v : Vec3 ℝ) (k : ℝ) (hk : 0 < k) (h : dot v v = k ^ 2) :
    normalize realMath v = v * (1 / k) := by
  unfold normalize inversesqrt
  rw [realMath_sqrt, h, Real.sqrt_sq hk.le]

/-- Over the reals, normalising a unit vector returns it. -/
theorem normalize_real_of_unit (v : Vec3 ℝ) (h : dot v v = 1) :
    normalize realMath v = v := by
  rw [normalize_real_of_dot v 1 one_pos (by rw [h]; norm_num), Vec3.ext_iff3]
  simp

/-- A pitch strictly between -89 and 89 degrees has a positive cosine. -/
theorem cos_radians_pos (pitch : ℝ) (h1 : -89 < pitch) (h2 : pitch < 89) :
    0 < Real.cos (pitch * (Real.pi / 180)) := by
  apply Real.cos_pos_of_mem_Ioo
  have hpi := Real.pi_pos
  constructor
  · nlinarith [mul_pos (sub_pos.mpr h1) hpi]
  · nlinarith [mul_pos (sub_pos.mpr h2) hpi]

/-- Closed form of the derived basis over the reals for a vertical reference
up vector `(0, w, 0)` with `w = 1` or `w = -1`, when the cosine of the pitch
is positive. -/
theorem derivedBasis_real_vertical (yaw pitch w : ℝ) (hw : w = 1 ∨ w = -1)
    (hc : 0 < Real.cos (pitch * (Real.pi / 180))) :
    derivedBasis realMath yaw pitch ⟨0, w, 0⟩ =
      (⟨Real.cos (yaw * (Real.pi / 180)) * Real.cos (pitch * (Real.pi / 180)),
        Real.sin (pitch * (Real.pi / 180)),
        Real.sin (yaw * (Real.pi / 180)) * Real.cos (pitch * (Real.pi / 180))⟩,
       ⟨-(w * Real.sin (yaw * (Real.pi / 180))), 0, w * Real.cos (yaw * (Real.pi / 180))⟩,
       ⟨-(w * Real.sin (pitch * (Real.pi / 180)) * Real.cos (yaw * (Real.pi / 180))),
        w * Real.cos (pitch * (Real.pi / 180)),
        -(w * Real.sin (yaw * (Real.pi / 180)) * Real.sin (pitch * (Real.pi / 180)))⟩) := by
  have hy := Real.sin_sq_add_cos_sq (yaw * (Real.pi / 180))
  have hp := Real.sin_sq_add_cos_sq (pitch * (Real.pi / 180))
  have hw2 : w ^ 2 = 1 := by rcases hw with h | h <;> rw [h] <;> norm_num
  simp only [derivedBasis, radians, realMath_cos, realMath_sin, realMath_pi]
  generalize Real.cos (yaw * (Real.pi / 180)) = cy at *
  generalize Real.sin (yaw * (Real.pi / 180)) = sy at *
  generalize Real.cos (pitch * (Real.pi / 180)) = cp at *
  generalize Real.sin (pitch * (Real.pi / 180)) = sp at *
  have hF : normalize realMath (⟨cy * cp, sp, sy * cp⟩ : Vec3 ℝ) = ⟨cy * cp, sp, sy * cp⟩ := by
    apply normalize_real_of_unit
    simp only [dot]
    nlinarith [hy, hp]
  rw [hF]
  have hR : normalize realMath (cross (⟨cy * cp, sp, sy * cp⟩ : Vec3 ℝ) ⟨0, w, 0⟩)
      = ⟨-(w * sy), 0, w * cy⟩ := by
    rw [normalize_real_of_dot _ cp hc, Vec3.ext_iff3]
    · simp only [cross, Vec3.mul_x, Vec3.mul_y, Vec3.mul_z]
      refine ⟨?_, ?_, ?_⟩ <;> field_simp <;> ring
    · simp only [cross, dot]
      have : (sp * 0 - w * (sy * cp)) * (sp * 0 - w * (sy * cp))
          + (sy * cp * 0 - 0 * (cy * cp)) * (sy * cp * 0 - 0 * (cy * cp))
          + (cy * cp * w - 0 * sp) * (cy * cp * w - 0 * sp)
          = w ^ 2 * cp ^ 2 * (sy ^ 2 + cy ^ 2) := by ring
      rw [this, hw2, hy]; ring
  rw [hR]
  have hU : normalize realMath (cross (⟨-(w * sy), 0, w * cy⟩ : Vec3 ℝ) ⟨cy * cp, sp, sy * cp⟩)
      = ⟨-(w * sp * cy), w * cp, -(w * sy * sp)⟩ := by
    rw [normalize_real_of_unit, Vec3.ext_iff3]
    · simp only [cross]
      refine ⟨?_, ?_, ?_⟩
      · ring
      · have : w * cy * (cy * cp) - sy * cp * -(w * sy) = w * cp * (sy ^ 2 + cy ^ 2) := by ring
        rw [this, hy]; ring
      · ring
    · simp only [cross, dot]
      have : (0 * (sy * cp) - sp * (w * cy)) * (0 * (sy * cp) - sp * (w * cy))
          + (w * cy * (cy * cp) - sy * cp * -(w * sy)) * (w * cy * (cy * cp) - sy * cp * -(w * sy))
          + (-(w * sy) * sp - cy * cp * 0) * (-(w * sy) * sp - cy * cp * 0)
          = w ^ 2 * ((sy ^ 2 + cy ^ 2) * sp ^ 2 + cp ^ 2 * (sy ^ 2 + cy ^ 2) ^ 2) := by ring
      rw [this, hw2, hy]
      nlinarith [hp]
  rw [hU]

/-- The derived basis at the default orientation (yaw -90, pitch 0) for a
vertical reference up vector `(0, w, 0)`, `w = 1` or `w = -1`. -/
theorem derivedBasis_default (w : ℝ) (hw : w = 1 ∨ w = -1) :
    derivedBasis realMath (-90) 0 ⟨0, w, 0⟩ = (⟨0, 0, -1⟩, ⟨w, 0, 0⟩, ⟨0, w, 0⟩) := by
  have h0 : (0 : ℝ) * (Real.pi / 180) = 0 := by ring
  have h90 : (-90 : ℝ) * (Real.pi / 180) = -(Real.pi / 2) := by ring
  rw [derivedBasis_real_vertical _ _ _ hw (by rw [h0, Real.cos_zero]; exact one_pos)]
  simp [h0, h90]

/-- Recomputation at the default orientation with the default reference up
vectors: `Front = (0, 0, -1)`, and `Right`, `Up` are `(1, 0, 0)`, `(0, 1, 0)`
under the perspective flag and their negations under the orthographic flag. -/
theorem update_default (c : Camera ℝ) (ortho : Bool) (hy : c.Yaw = -90) (hp : c.Pitch = 0)
    (hw : c.WorldUp = ⟨0, 1, 0⟩) (ho : c.OrthoWorldUp = ⟨0, -1, 0⟩) :
    c.updateCameraVectors realMath ortho =
      { c with
        Front := ⟨0, 0, -1⟩
        Right := ⟨if ortho then -1 else 1, 0, 0⟩
        Up := ⟨0, if ortho then -1 else 1, 0⟩ } := by
  rw [Camera.updateCameraVectors_eq, hy, hp, hw, ho]
  cases ortho
  · simp [derivedBasis_default 1 (Or.inl rfl)]
  · simp [derivedBasis_default (-1) (Or.inr rfl)]

/-- The camera at rest under either flag. -/
theorem atRest_update (ortho : Bool) :
    (Camera.atRest : Camera ℝ).updateCameraVectors realMath ortho
      = if ortho then Camera.atRestOrtho else Camera.atRest := by
  rw [update_default _ ortho rfl rfl rfl rfl]
  cases ortho <;> simp [Camera.atRest, Camera.atRestOrtho]

/-- The orthographic camera at rest under either flag. -/
theorem atRestOrtho_update (ortho : Bool) :
    (Camera.atRestOrtho : Camera ℝ).updateCameraVectors realMath ortho
      = if ortho then Camera.atRestOrtho else Camera.atRest := by
  rw [update_default _ ortho rfl rfl rfl rfl]
  cases ortho <;> simp [Camera.atRest, Camera.atRestOrtho]

/-- Static initialisation leaves the camera at rest. -/
theorem initial_camera : (Globals.initial realMath : Globals ℝ).camera = Camera.atRest := by
  simp only [Globals.initial, Camera.Construct]
  rw [update_default _ false rfl rfl rfl (by simp [Vec3.ext_iff3])]
  simp [Camera.atRest, SPEED, SENSITIVITY, ZOOM, YAW, PITCH, Vec3.ext_iff3]

/-- The globals after toggling to orthographic, rendering a frame and toggling
back: the flag is perspective again, the cached basis is the orthographic
one. -/
theorem afterToggleBack_eq :
    (Globals.afterToggleBack realMath : Globals ℝ)
      = { camera := Camera.atRestOrtho, ortho := false } := by
  have h : (Globals.initial realMath : Globals ℝ)
      = { camera := Camera.atRest, ortho := false } := by
    have hc := initial_camera
    simp only [Globals.initial] at hc ⊢
    rw [hc]
  rw [Globals.afterToggleBack, h]
  simp [Globals.run, Globals.step, key_callback, GLFW_RELEASE, GLFW_PRESS, GLFW_KEY_P,
    Camera.GetViewMatrix, atRest_update]

/-- The view matrix from the eye `(0, 0, 4)` looking along `(0, 0, -1)` with
up vector `(0, w, 0)`, `w = 1` or `w = -1`. -/
theorem lookAt_default (w : ℝ) (hw : w = 1 ∨ w = -1) :
    lookAt realMath (⟨0, 0, 4⟩ : Vec3 ℝ) (⟨0, 0, 4⟩ + ⟨0, 0, -1⟩) ⟨0, w, 0⟩
      = ⟨⟨w, 0, 0, 0⟩, ⟨0, w, 0, 0⟩, ⟨0, 0, 1, 0⟩, ⟨0, 0, -4, 1⟩⟩ := by
  have hw2 : w * w = 1 := by rcases hw with h | h <;> rw [h] <;> norm_num
  have h1 : ((⟨0, 0, 4⟩ : Vec3 ℝ) + ⟨0, 0, -1⟩) - ⟨0, 0, 4⟩ = ⟨0, 0, -1⟩ := by
    rw [Vec3.ext_iff3]; norm_num
  have h2 : normalize realMath (⟨0, 0, -1⟩ : Vec3 ℝ) = ⟨0, 0, -1⟩ :=
    normalize_real_of_unit _ (by norm_num [dot])
  have h3 : cross (⟨0, 0, -1⟩ : Vec3 ℝ) ⟨0, w, 0⟩ = ⟨w, 0, 0⟩ := by
    simp [cross]
  have h4 : normalize realMath (⟨w, 0, 0⟩ : Vec3 ℝ) = ⟨w, 0, 0⟩ :=
    normalize_real_of_unit _ (by simp [dot, hw2])
  simp only [lookAt, h1, h2, h3, h4]
  simp [cross, dot]

/-- The reference up vector the recomputation uses, for a camera whose
`WorldUp` is `(0, 1, 0)` and whose `OrthoWorldUp` is its negation. -/
theorem refUp_vertical (c : Camera ℝ) (ortho : Bool)
    (hw : c.WorldUp = ⟨0, 1, 0⟩) (ho : c.OrthoWorldUp = -c.WorldUp) :
    (if ortho then c.OrthoWorldUp else c.WorldUp)
      = (⟨0, if ortho then -1 else 1, 0⟩ : Vec3 ℝ) := by
  cases ortho <;> simp [ho, hw, Vec3.ext_iff3]

/-- C1: for a camera with `WorldUp = (0, 1, 0)` and `OrthoWorldUp = -WorldUp`
(as the constructor sets it), every yaw (in particular every yaw in
`[0, 360)`), every pitch strictly between -89 and 89 degrees and either value
of the mode flag, after `updateCameraVectors` the vectors `Front`, `Right`,
`Up` each have length 1 and their three dot products are 0, over exact real
arithmetic. -/
theorem updateCameraVectors_orthonormal (c : Camera ℝ) (ortho : Bool)
    (hw : c.WorldUp = ⟨0, 1, 0⟩) (ho : c.OrthoWorldUp = -c.WorldUp)
    (hp1 : -89 < c.Pitch) (hp2 : c.Pitch < 89) :
    length realMath (c.updateCameraVectors realMath ortho).Front = 1
      ∧ length realMath (c.updateCameraVectors realMath ortho).Right = 1
      ∧ length realMath (c.updateCameraVectors realMath ortho).Up = 1
      ∧ dot (c.updateCameraVectors realMath ortho).Front
          (c.updateCameraVectors realMath ortho).Right = 0
      ∧ dot (c.updateCameraVectors realMath ortho).Front
          (c.updateCameraVectors realMath ortho).Up = 0
      ∧ dot (c.updateCameraVectors realMath ortho).Right
          (c.updateCameraVectors realMath ortho).Up = 0 := by
  have hwv : (if ortho then (-1 : ℝ) else 1) = 1 ∨ (if ortho then (-1 : ℝ) else 1) = -1 := by
    cases ortho <;> simp
  have hw2 : (if ortho then (-1 : ℝ) else 1) ^ 2 = 1 := by
    rcases hwv with h | h <;> rw [h] <;> norm_num
  have hy := Real.sin_sq_add_cos_sq (c.Yaw * (Real.pi / 180))
  have hp := Real.sin_sq_add_cos_sq (c.Pitch * (Real.pi / 180))
  rw [Camera.updateCameraVectors_eq, refUp_vertical c ortho hw ho,
    derivedBasis_real_vertical _ _ _ hwv (cos_radians_pos _ hp1 hp2)]
  simp only [length, dot, realMath_sqrt]
  generalize (if ortho then (-1 : ℝ) else 1) = w at *
  generalize Real.cos (c.Yaw * (Real.pi / 180)) = cy at *
  generalize Real.sin (c.Yaw * (Real.pi / 180)) = sy at *
  generalize Real.cos (c.Pitch * (Real.pi / 180)) = cp at *
  generalize Real.sin (c.Pitch * (Real.pi / 180)) = sp at *
  have e1 : cy * cp * (cy * cp) + sp * sp + sy * cp * (sy * cp) = 1 := by
    have : cy * cp * (cy * cp) + sp * sp + sy * cp * (sy * cp)
        = cp ^ 2 * (sy ^ 2 + cy ^ 2) + sp ^ 2 := by ring
    rw [this, hy]; linarith
  have e2 : -(w * sy) * -(w * sy) + 0 * 0 + w * cy * (w * cy) = 1 := by
    have : -(w * sy) * -(w * sy) + 0 * 0 + w * cy * (w * cy)
        = w ^ 2 * (sy ^ 2 + cy ^ 2) := by ring
    rw [this, hw2, hy]; norm_num
  have e3 : -(w * sp * cy) * -(w * sp * cy) + w * cp * (w * cp)
      + -(w * sy * sp) * -(w * sy * sp) = 1 := by
    have : -(w * sp * cy) * -(w * sp * cy) + w * cp * (w * cp)
        + -(w * sy * sp) * -(w * sy * sp)
        = w ^ 2 * (sp ^ 2 * (sy ^ 2 + cy ^ 2) + cp ^ 2) := by ring
    rw [this, hw2, hy]; linarith
  refine ⟨?_, ?_, ?_, ?_, ?_, ?_⟩
  · rw [e1, Real.sqrt_one]
  · rw [e2, Real.sqrt_one]
  · rw [e3, Real.sqrt_one]
  · ring
  · linear_combination (-(w * cp * sp)) * hy
  · ring

/-- Witness for C1: the camera at rest (yaw -90, pitch 0) under the
perspective flag. -/
theorem updateCameraVectors_orthonormal_witness :
    (Camera.atRest : Camera ℝ).WorldUp = ⟨0, 1, 0⟩
      ∧ (Camera.atRest : Camera ℝ).OrthoWorldUp = -(Camera.atRest : Camera ℝ).WorldUp
      ∧ -89 < (Camera.atRest : Camera ℝ).Pitch
      ∧ (Camera.atRest : Camera ℝ).Pitch < 89
      ∧ length realMath ((Camera.atRest : Camera ℝ).updateCameraVectors realMath false).Front = 1
      ∧ dot ((Camera.atRest : Camera ℝ).updateCameraVectors realMath false).Right
          ((Camera.atRest : Camera ℝ).updateCameraVectors realMath false).Up = 0 :=
  have h1 : (Camera.atRest : Camera ℝ).WorldUp = ⟨0, 1, 0⟩ := rfl
  have h2 : (Camera.atRest : Camera ℝ).OrthoWorldUp = -(Camera.atRest : Camera ℝ).WorldUp := by
    simp [Camera.atRest, Vec3.ext_iff3]
  have h3 : -89 < (Camera.atRest : Camera ℝ).Pitch := by norm_num [Camera.atRest]
  have h4 : (Camera.atRest : Camera ℝ).Pitch < 89 := by norm_num [Camera.atRest]
  ⟨h1, h2, h3, h4,
    (updateCameraVectors_orthonormal Camera.atRest false h1 h2 h3 h4).1,
    (updateCameraVectors_orthonormal Camera.atRest false h1 h2 h3 h4).2.2.2.2.2⟩

/-- Witness for C2: on the camera at rest (pitch 0, sensitivity 0.1) a vertical
offset of 2000 drives the unclamped pitch to 200 and the stored pitch is 89. -/
theorem ProcessMouseMovement_pitch_clamp_witness :
    (Camera.atRest : Camera ℝ).Pitch + (Camera.atRest : Camera ℝ).MouseSensitivity * 2000 = 200
      ∧ ((Camera.atRest : Camera ℝ).ProcessMouseMovement realMath false 0 2000 true).Pitch = 89 :=
  have h : (Camera.atRest : Camera ℝ).Pitch
      + (Camera.atRest : Camera ℝ).MouseSensitivity * 2000 = 200 := by
    norm_num [Camera.atRest]
  ⟨h, (ProcessMouseMovement_pitch_clamp realMath false Camera.atRest 0 2000).2.2.2.1 h⟩

/-- C5 (as amended): for a camera with yaw -90, pitch 0, `WorldUp = (0, 1, 0)`,
`OrthoWorldUp = -WorldUp`, positive movement speed and `deltaTime > 0`, whose
cached basis is the one derived for the current mode flag,
`ProcessKeyboard UPWARD` strictly increases `Position.y` in perspective mode
and in orthographic mode alike. -/
theorem ProcessKeyboard_upward_default (c : Camera ℝ) (ortho : Bool) (deltaTime : ℝ)
    (hy : c.Yaw = -90) (hp : c.Pitch = 0)
    (hw : c.WorldUp = ⟨0, 1, 0⟩) (ho : c.OrthoWorldUp = -c.WorldUp)
    (hs : 0 < c.MovementSpeed) (hd : 0 < deltaTime)
    (hb : c.updateCameraVectors realMath ortho = c) :
    c.Position.y < (c.ProcessKeyboard ortho Camera_Movement.UPWARD deltaTime).Position.y := by
  have hU : c.Up = ⟨0, if ortho then -1 else 1, 0⟩ := by
    have h := update_default c ortho hy hp hw (by rw [ho, hw]; simp [Vec3.ext_iff3])
    rw [hb] at h
    have h2 := congrArg Camera.Up h
    simpa using h2
  have hv : 0 < c.MovementSpeed * deltaTime := mul_pos hs hd
  rw [Camera.ProcessKeyboard_upward]
  cases ortho <;> simp [hU, hv]

/-- Witness for C5 (as amended): the camera at rest in perspective mode, moved
for one second. -/
theorem ProcessKeyboard_upward_default_witness :
    (Camera.atRest : Camera ℝ).updateCameraVectors realMath false = Camera.atRest
      ∧ (Camera.atRest : Camera ℝ).Position.y
          < ((Camera.atRest : Camera ℝ).ProcessKeyboard false Camera_Movement.UPWARD 1).Position.y :=
  ⟨atRest_update false,
    ProcessKeyboard_upward_default Camera.atRest false 1 rfl rfl rfl
      (by simp [Camera.atRest, Vec3.ext_iff3]) (by norm_num [Camera.atRest]) one_pos
      (atRest_update false)⟩

/-- C5 (counterexample to the claim as stated): the camera at rest in
orthographic mode, with the basis derived for that mode, has yaw -90, pitch 0,
`WorldUp = (0, 1, 0)` and speed 2.5; `ProcessKeyboard UPWARD` for one second
does not decrease `Position.y` (it moves it from 0 to 2.5). -/
theorem ProcessKeyboard_upward_ortho_not_decreasing :
    (Camera.atRestOrtho : Camera ℝ).Yaw = -90
      ∧ (Camera.atRestOrtho : Camera ℝ).Pitch = 0
      ∧ (Camera.atRestOrtho : Camera ℝ).WorldUp = ⟨0, 1, 0⟩
      ∧ (0 : ℝ) < (Camera.atRestOrtho : Camera ℝ).MovementSpeed
      ∧ (Camera.atRestOrtho : Camera ℝ).updateCameraVectors realMath true = Camera.atRestOrtho
      ∧ ((Camera.atRestOrtho : Camera ℝ).ProcessKeyboard true Camera_Movement.UPWARD 1).Position.y
          = 2.5
      ∧ ¬ (((Camera.atRestOrtho : Camera ℝ).ProcessKeyboard true
              Camera_Movement.UPWARD 1).Position.y
            < (Camera.atRestOrtho : Camera ℝ).Position.y) := by
  refine ⟨rfl, rfl, rfl, ?_, atRestOrtho_update true, ?_, ?_⟩
  · norm_num [Camera.atRestOrtho, Camera.atRest]
  · rw [Camera.ProcessKeyboard_upward]
    norm_num [Camera.atRestOrtho, Camera.atRest]
  · rw [Camera.ProcessKeyboard_upward]
    norm_num [Camera.atRestOrtho, Camera.atRest]

/-- C7 (as amended): `GetViewMatrix(true)` first recomputes the basis with
the reference up vector selected by the process-wide flag, `OrthoWorldUp`
when the flag is orthographic and `WorldUp` when it is perspective:
`Right = normalize (cross Front reference)`,
`Up = normalize (cross Right Front)`, with `Front` the normalised spherical
direction of the current yaw and pitch; it changes no other field and returns
`lookAt Position (Position + Front) Up` for that fresh basis. -/
theorem GetViewMatrix_true_recomputes {α : Type} [LinearOrderedField α]
    (m : MathFns α) (ortho : Bool) (c : Camera α) :
    (c.GetViewMatrix m ortho true).2.Front
        = normalize m
            ⟨m.cos (c.Yaw * (m.pi / 180)) * m.cos (c.Pitch * (m.pi / 180)),
             m.sin (c.Pitch * (m.pi / 180)),
             m.sin (c.Yaw * (m.pi / 180)) * m.cos (c.Pitch * (m.pi / 180))⟩
      ∧ (c.GetViewMatrix m ortho true).2.Right
        = normalize m (cross (c.GetViewMatrix m ortho true).2.Front
            (if ortho then c.OrthoWorldUp else c.WorldUp))
      ∧ (c.GetViewMatrix m ortho true).2.Up
        = normalize m (cross (c.GetViewMatrix m ortho true).2.Right
            (c.GetViewMatrix m ortho true).2.Front)
      ∧ (c.GetViewMatrix m ortho true).2
        = { c with
            Front := (c.GetViewMatrix m ortho true).2.Front
            Right := (c.GetViewMatrix m ortho true).2.Right
            Up := (c.GetViewMatrix m ortho true).2.Up }
      ∧ (c.GetViewMatrix m ortho true).1
        = lookAt m c.Position (c.Position + (c.GetViewMatrix m ortho true).2.Front)
            (c.GetViewMatrix m ortho true).2.Up := by
  cases ortho <;> simp [Camera.GetViewMatrix, Camera.updateCameraVectors, radians]

/-- C7 (counterexample to the claim as stated): with the process-wide flag
perspective, `GetViewMatrix(true)` on the camera at rest leaves
`Right = (1, 0, 0)`, whereas `normalize (cross Front OrthoWorldUp)` is
`(-1, 0, 0)`. -/
theorem GetViewMatrix_true_perspective_flag :
    ((Camera.atRest : Camera ℝ).GetViewMatrix realMath false true).2.Right = ⟨1, 0, 0⟩
      ∧ normalize realMath
          (cross ((Camera.atRest : Camera ℝ).GetViewMatrix realMath false true).2.Front
            ((Camera.atRest : Camera ℝ).GetViewMatrix realMath false true).2.OrthoWorldUp)
          = ⟨-1, 0, 0⟩
      ∧ ¬ (((Camera.atRest : Camera ℝ).GetViewMatrix realMath false true).2.Right
            = normalize realMath
                (cross ((Camera.atRest : Camera ℝ).GetViewMatrix realMath false true).2.Front
                  ((Camera.atRest : Camera ℝ).GetViewMatrix realMath false true).2.OrthoWorldUp)) := by
  have h : ((Camera.atRest : Camera ℝ).GetViewMatrix realMath false true).2 = Camera.atRest := by
    simp [Camera.GetViewMatrix, atRest_update]
  have hc : cross (⟨0, 0, -1⟩ : Vec3 ℝ) ⟨0, -1, 0⟩ = ⟨-1, 0, 0⟩ := by
    simp [cross]
  have hn : normalize realMath (⟨-1, 0, 0⟩ : Vec3 ℝ) = ⟨-1, 0, 0⟩ :=
    normalize_real_of_unit _ (by norm_num [dot])
  rw [h]
  simp only [Camera.atRest, hc, hn]
  refine ⟨trivial, trivial, ?_⟩
  rw [Vec3.ext_iff3]
  norm_num

/-- C8 (the code at the failing input): after P is pressed, a frame is
rendered and P is pressed again, the flag is perspective and yaw, pitch are
still -90 and 0, so the derived basis is `Right = (1, 0, 0)`,
`Up = (0, 1, 0)`; but the cached vectors are the orthographic ones,
`Right = (-1, 0, 0)`, `Up = (0, -1, 0)`, and the next frame's
`GetViewMatrix(false)` returns the matrix built from them, which differs from
the matrix of the derived basis (the scene is shown rolled by half a turn). -/
theorem viewMatrix_afterToggleBack :
    (Globals.afterToggleBack realMath : Globals ℝ).ortho = false
      ∧ (Globals.afterToggleBack realMath : Globals ℝ).camera.Right = ⟨-1, 0, 0⟩
      ∧ (Globals.afterToggleBack realMath : Globals ℝ).camera.Up = ⟨0, -1, 0⟩
      ∧ derivedBasis realMath (Globals.afterToggleBack realMath : Globals ℝ).camera.Yaw
          (Globals.afterToggleBack realMath : Globals ℝ).camera.Pitch
          (Globals.afterToggleBack realMath : Globals ℝ).camera.WorldUp
          = (⟨0, 0, -1⟩, ⟨1, 0, 0⟩, ⟨0, 1, 0⟩)
      ∧ Globals.viewMatrix realMath (Globals.afterToggleBack realMath : Globals ℝ)
          = ⟨⟨-1, 0, 0, 0⟩, ⟨0, -1, 0, 0⟩, ⟨0, 0, 1, 0⟩, ⟨0, 0, -4, 1⟩⟩
      ∧ lookAt realMath (Globals.afterToggleBack realMath : Globals ℝ).camera.Position
          ((Globals.afterToggleBack realMath : Globals ℝ).camera.Position
            + (Globals.afterToggleBack realMath : Globals ℝ).camera.Front)
          (derivedBasis realMath (Globals.afterToggleBack realMath : Globals ℝ).camera.Yaw
            (Globals.afterToggleBack realMath : Globals ℝ).camera.Pitch
            (Globals.afterToggleBack realMath : Globals ℝ).camera.WorldUp).2.2
          = ⟨⟨1, 0, 0, 0⟩, ⟨0, 1, 0, 0⟩, ⟨0, 0, 1, 0⟩, ⟨0, 0, -4, 1⟩⟩ := by
  rw [afterToggleBack_eq]
  have hd : derivedBasis realMath (Camera.atRestOrtho : Camera ℝ).Yaw
      (Camera.atRestOrtho : Camera ℝ).Pitch (Camera.atRestOrtho : Camera ℝ).WorldUp
      = (⟨0, 0, -1⟩, ⟨1, 0, 0⟩, ⟨0, 1, 0⟩) := derivedBasis_default 1 (Or.inl rfl)
  refine ⟨rfl, rfl, rfl, hd, ?_, ?_⟩
  · exact lookAt_default (-1) (Or.inr rfl)
  · rw [hd]
    exact lookAt_default 1 (Or.inl rfl)

/-! ## Frame conditions, projections and the mode flag -/

section Frame

variable {α : Type} [LinearOrderedField α]

/-- The movement speed after `ProcessMouseScroll` lies in `[1, 50]`. -/
theorem Camera.ProcessMouseScroll_bounds (c : Camera α) (yoffset : α) :
    1 ≤ (c.ProcessMouseScroll yoffset).MovementSpeed
      ∧ (c.ProcessMouseScroll yoffset).MovementSpeed ≤ 50 := by
  simp only [Camera.ProcessMouseScroll]
  by_cases h1 : c.MovementSpeed + yoffset < 1
  · have h2 : ¬ ((1 : α) > 50) := by norm_num
    simp only [h1, h2, if_true, if_false]
    norm_num
  · by_cases h2 : c.MovementSpeed + yoffset > 50
    · simp only [h1, h2, if_true, if_false]
      norm_num
    · simp only [h1, h2, if_false]
      exact ⟨not_lt.mp h1, not_lt.mp h2⟩

/-- `ProcessKeyboard` leaves the movement speed alone. -/
theorem Camera.ProcessKeyboard_speed (ortho : Bool) (c : Camera α)
    (direction : Camera_Movement) (deltaTime : α) :
    (c.ProcessKeyboard ortho direction deltaTime).MovementSpeed = c.MovementSpeed := by
  cases direction <;> cases ortho <;> simp [Camera.ProcessKeyboard]

/-- `ProcessMouseMovement` leaves the movement speed alone. -/
theorem Camera.ProcessMouseMovement_speed (m : MathFns α) (ortho : Bool) (c : Camera α)
    (xoffset yoffset : α) (constrainPitch : Bool) :
    (c.ProcessMouseMovement m ortho xoffset yoffset constrainPitch).MovementSpeed
      = c.MovementSpeed := by
  cases constrainPitch <;>
    simp only [Camera.ProcessMouseMovement, Camera.updateCameraVectors_eq] <;>
    split_ifs <;> rfl

/-- `GetViewMatrix` leaves the movement speed alone. -/
theorem Camera.GetViewMatrix_speed (m : MathFns α) (ortho : Bool) (c : Camera α)
    (orthoArg : Bool) :
    (c.GetViewMatrix m ortho orthoArg).2.MovementSpeed = c.MovementSpeed := by
  cases orthoArg <;> simp [Camera.GetViewMatrix, Camera.updateCameraVectors_eq]

/-- One event keeps the movement speed in `[1, 50]`. -/
theorem Globals.step_speed_bounds (m : MathFns α) (g : Globals α) (e : Event α)
    (h : 1 ≤ g.camera.MovementSpeed ∧ g.camera.MovementSpeed ≤ 50) :
    1 ≤ (g.step m e).camera.MovementSpeed ∧ (g.step m e).camera.MovementSpeed ≤ 50 := by
  cases e with
  | move direction deltaTime =>
      simpa [Globals.step, Camera.ProcessKeyboard_speed] using h
  | rotate xoffset yoffset =>
      simpa [Globals.step, Camera.ProcessMouseMovement_speed] using h
  | scroll yoffset =>
      simpa [Globals.step] using Camera.ProcessMouseScroll_bounds g.camera yoffset
  | toggle => simpa [Globals.step] using h
  | view => simpa [Globals.step, Camera.GetViewMatrix_speed] using h

/-- Any sequence of events keeps the movement speed in `[1, 50]`. -/
theorem Globals.run_speed_bounds (m : MathFns α) (es : List (Event α)) :
    ∀ g : Globals α, 1 ≤ g.camera.MovementSpeed ∧ g.camera.MovementSpeed ≤ 50 →
      1 ≤ (g.run m es).camera.MovementSpeed ∧ (g.run m es).camera.MovementSpeed ≤ 50 := by
  induction es with
  | nil => intro g h; simpa [Globals.run] using h
  | cons e es ih =>
      intro g h
      have h2 := ih (g.step m e) (Globals.step_speed_bounds m g e h)
      simpa [Globals.run] using h2

/-- The flag after a sequence of events: unchanged when the number of presses
of P is even, negated when it is odd. -/
theorem Globals.run_ortho (m : MathFns α) (es : List (Event α)) :
    ∀ g : Globals α, (g.run m es).ortho
      = if Even (es.countP Event.isToggle) then g.ortho else !g.ortho := by
  induction es with
  | nil => intro g; simp [Globals.run]
  | cons e es ih =>
      intro g
      have h2 := ih (g.step m e)
      have hrun : g.run m (e :: es) = (g.step m e).run m es := by simp [Globals.run]
      rw [hrun, h2]
      by_cases h : Even (es.countP Event.isToggle) <;>
        cases e <;>
        simp [Globals.step, Event.isToggle, key_callback, GLFW_RELEASE, GLFW_PRESS,
          Nat.even_add_one, h]

/-- C11: `ProcessMouseMovement` sets the yaw to
`old yaw + MouseSensitivity * xoffset`, unclamped and unwrapped, for either
value of `constrainPitch`; with `constrainPitch = false` it sets the pitch to
exactly `old pitch + MouseSensitivity * yoffset`, whatever that value is;
`Position`, `MovementSpeed`, `MouseSensitivity`, `Zoom`, `WorldUp` and
`OrthoWorldUp` are unchanged. -/
theorem ProcessMouseMovement_angles (m : MathFns α) (ortho : Bool) (c : Camera α)
    (xoffset yoffset : α) (constrainPitch : Bool) :
    (c.ProcessMouseMovement m ortho xoffset yoffset constrainPitch).Yaw
        = c.Yaw + c.MouseSensitivity * xoffset
      ∧ (c.ProcessMouseMovement m ortho xoffset yoffset false).Pitch
        = c.Pitch + c.MouseSensitivity * yoffset
      ∧ (c.ProcessMouseMovement m ortho xoffset yoffset constrainPitch).Position = c.Position
      ∧ (c.ProcessMouseMovement m ortho xoffset yoffset constrainPitch).MovementSpeed
        = c.MovementSpeed
      ∧ (c.ProcessMouseMovement m ortho xoffset yoffset constrainPitch).MouseSensitivity
        = c.MouseSensitivity
      ∧ (c.ProcessMouseMovement m ortho xoffset yoffset constrainPitch).Zoom = c.Zoom
      ∧ (c.ProcessMouseMovement m ortho xoffset yoffset constrainPitch).WorldUp = c.WorldUp
      ∧ (c.ProcessMouseMovement m ortho xoffset yoffset constrainPitch).OrthoWorldUp
        = c.OrthoWorldUp := by
  rw [mul_comm c.MouseSensitivity xoffset, mul_comm c.MouseSensitivity yoffset]
  refine ⟨?_, ?_, ?_, ?_, ?_, ?_, ?_, ?_⟩ <;>
    cases constrainPitch <;>
    simp only [Camera.ProcessMouseMovement, Camera.updateCameraVectors_eq, Bool.false_eq_true,
      if_false, if_true] <;>
    split_ifs <;> rfl

/-- C16: `ProcessKeyboard` changes only `Position`: `Yaw`, `Pitch`, `Front`,
`Right`, `Up`, `WorldUp`, `OrthoWorldUp`, `MovementSpeed`, `MouseSensitivity`
and `Zoom` are the same before and after the call, for every direction,
`deltaTime` and value of the flag (so the basis is not recomputed). -/
theorem ProcessKeyboard_frame (ortho : Bool) (c : Camera α) (direction : Camera_Movement)
    (deltaTime : α) :
    (c.ProcessKeyboard ortho direction deltaTime).Yaw = c.Yaw
      ∧ (c.ProcessKeyboard ortho direction deltaTime).Pitch = c.Pitch
      ∧ (c.ProcessKeyboard ortho direction deltaTime).Front = c.Front
      ∧ (c.ProcessKeyboard ortho direction deltaTime).Right = c.Right
      ∧ (c.ProcessKeyboard ortho direction deltaTime).Up = c.Up
      ∧ (c.ProcessKeyboard ortho direction deltaTime).WorldUp = c.WorldUp
      ∧ (c.ProcessKeyboard ortho direction deltaTime).OrthoWorldUp = c.OrthoWorldUp
      ∧ (c.ProcessKeyboard ortho direction deltaTime).MovementSpeed = c.MovementSpeed
      ∧ (c.ProcessKeyboard ortho direction deltaTime).MouseSensitivity = c.MouseSensitivity
      ∧ (c.ProcessKeyboard ortho direction deltaTime).Zoom = c.Zoom
      ∧ c.ProcessKeyboard ortho direction deltaTime
        = { c with Position := (c.ProcessKeyboard ortho direction deltaTime).Position } := by
  cases direction <;> cases ortho <;> simp [Camera.ProcessKeyboard]

/-- C13: in orthographic mode the projection is
`glm::ortho (-W/s) (W/s) (H/s) (-H/s) (-4) 10` with `W = 800`, `H = 600`,
`s = 200`, that is `glm::ortho (-4) 4 3 (-3) (-4) 10`, whose matrix has x
scale 1/4, y scale -1/3, z scale -1/7, z translation -3/7 and no x or y
translation. -/
theorem projection_ortho (m : MathFns α) :
    projection m true
        = glm_ortho (-((WINDOW_WIDTH : α) / 200)) ((WINDOW_WIDTH : α) / 200)
            ((WINDOW_HEIGHT : α) / 200) (-((WINDOW_HEIGHT : α) / 200)) (-4) 10
      ∧ projection m true = glm_ortho (-4) 4 3 (-3) (-4) 10
      ∧ projection m true
        = ⟨⟨1 / 4, 0, 0, 0⟩, ⟨0, -1 / 3, 0, 0⟩, ⟨0, 0, -1 / 7, 0⟩, ⟨0, 0, -3 / 7, 1⟩⟩ := by
  have hW : ((WINDOW_WIDTH : Int) : α) / 200 = 4 := by norm_num [WINDOW_WIDTH]
  have hH : ((WINDOW_HEIGHT : Int) : α) / 200 = 3 := by norm_num [WINDOW_HEIGHT]
  refine ⟨by simp [projection], by simp [projection, hW, hH], ?_⟩
  simp only [projection, if_true, hW, hH, glm_ortho]
  norm_num

/-- C18: in every state reached from a constructed camera (any constructor
arguments, any initial flag) by a finite sequence of moves, rotations,
scrolls, toggles and view queries, the movement speed lies in `[1, 50]`;
`ProcessKeyboard`, `ProcessMouseMovement`, `GetViewMatrix` and the toggle
leave the movement speed unchanged, so only `ProcessMouseScroll` changes
it. -/
theorem MovementSpeed_invariant (m : MathFns α) (ortho : Bool) (position up : Vec3 α)
    (yaw pitch : α) (es : List (Event α)) :
    (1 ≤ ((Globals.constructed m ortho position up yaw pitch).run m es).camera.MovementSpeed
      ∧ ((Globals.constructed m ortho position up yaw pitch).run m es).camera.MovementSpeed ≤ 50)
      ∧ (∀ (g : Bool) (c : Camera α) (direction : Camera_Movement) (deltaTime : α),
          (c.ProcessKeyboard g direction deltaTime).MovementSpeed = c.MovementSpeed)
      ∧ (∀ (g : Bool) (c : Camera α) (xoffset yoffset : α) (constrainPitch : Bool),
          (c.ProcessMouseMovement m g xoffset yoffset constrainPitch).MovementSpeed
            = c.MovementSpeed)
      ∧ (∀ (g : Bool) (c : Camera α) (orthoArg : Bool),
          (c.GetViewMatrix m g orthoArg).2.MovementSpeed = c.MovementSpeed)
      ∧ (∀ g : Globals α, (g.step m Event.toggle).camera = g.camera) := by
  refine ⟨?_, fun g c d t => Camera.ProcessKeyboard_speed g c d t,
    fun g c x y k => Camera.ProcessMouseMovement_speed m g c x y k,
    fun g c a => Camera.GetViewMatrix_speed m g c a, fun g => rfl⟩
  apply Globals.run_speed_bounds
  have hs : (Globals.constructed m ortho position up yaw pitch).camera.MovementSpeed = 2.5 := by
    simp [Globals.constructed, Camera.Construct, Camera.updateCameraVectors_eq, SPEED]
  rw [hs]
  norm_num

/-- C19: the flag starts as perspective (`ortho = false`); a press of P
replaces it by its negation and changes nothing else; after `n` presses from
the start the mode is orthographic exactly when `n` is odd, and more generally
after any sequence of events exactly when the number of presses in it is odd;
two presses in a row restore the globals; moves, rotations, scrolls and view
queries leave the flag unchanged. -/
theorem ortho_flag_lifecycle (m : MathFns α) :
    (Globals.initial m).ortho = false
      ∧ (∀ g : Globals α, g.step m Event.toggle = { g with ortho := !g.ortho })
      ∧ (∀ n : Nat,
          ((Globals.initial m).run m (List.replicate n Event.toggle)).ortho = true ↔ Odd n)
      ∧ (∀ es : List (Event α),
          ((Globals.initial m).run m es).ortho = true ↔ Odd (es.countP Event.isToggle))
      ∧ (∀ g : Globals α, (g.step m Event.toggle).step m Event.toggle = g)
      ∧ (∀ (g : Globals α) (direction : Camera_Movement) (deltaTime : α),
          (g.step m (Event.move direction deltaTime)).ortho = g.ortho)
      ∧ (∀ (g : Globals α) (xoffset yoffset : α),
          (g.step m (Event.rotate xoffset yoffset)).ortho = g.ortho)
      ∧ (∀ (g : Globals α) (yoffset : α), (g.step m (Event.scroll yoffset)).ortho = g.ortho)
      ∧ (∀ g : Globals α, (g.step m Event.view).ortho = g.ortho) := by
  have hes : ∀ es : List (Event α),
      ((Globals.initial m).run m es).ortho = true ↔ Odd (es.countP Event.isToggle) := by
    intro es
    rw [Globals.run_ortho]
    by_cases h : Even (es.countP Event.isToggle)
    · simp [h, Globals.initial, Nat.not_odd_iff_even.mpr h]
    · simp [h, Globals.initial, Nat.not_even_iff_odd.mp h]
  refine ⟨rfl, ?_, ?_, hes, ?_, fun _ _ _ => rfl, fun _ _ _ => rfl, fun _ _ => rfl,
    fun _ => rfl⟩
  · intro g
    simp [Globals.step, key_callback, GLFW_RELEASE, GLFW_PRESS]
  · intro n
    rw [hes]
    have : (List.replicate n (Event.toggle : Event α)).countP Event.isToggle = n := by
      induction n with
      | zero => simp
      | succ k ih => simp [List.replicate_succ, List.countP_cons, Event.isToggle, ih]
    rw [this]
  · intro g
    cases g
    simp [Globals.step, key_callback, GLFW_RELEASE, GLFW_PRESS]

end Frame

/-! ## The view matrix of an orthonormal basis -/

/-- Lagrange identity for the cross product. -/
theorem dot_cross_self (a b : Vec3 ℝ) :
    dot (cross a b) (cross a b) = dot a a * dot b b - dot a b ^ 2 := by
  simp only [dot, cross]
  ring

/-- Triple product expansion of `(a × b) × a`. -/
theorem cross_cross_self (a b : Vec3 ℝ) :
    cross (cross a b) a = b * dot a a - a * dot a b := by
  rw [Vec3.ext_iff3]
  simp only [dot, cross, Vec3.sub_x, Vec3.sub_y, Vec3.sub_z, Vec3.mul_x, Vec3.mul_y, Vec3.mul_z]
  refine ⟨?_, ?_, ?_⟩ <;> ring

/-- Over the reals, `lookAt` from `p` towards `p + F` with up vector `U`, for
unit and orthogonal `F` and `U`: the rows of the rotation block are
`cross F U`, `U` and `-F`. -/
theorem lookAt_of_orthonormal (p F U : Vec3 ℝ) (hF : dot F F = 1) (hU : dot U U = 1)
    (hFU : dot F U = 0) :
    lookAt realMath p (p + F) U =
      { c0 := ⟨(cross F U).x, U.x, -F.x, 0⟩
        c1 := ⟨(cross F U).y, U.y, -F.y, 0⟩
        c2 := ⟨(cross F U).z, U.z, -F.z, 0⟩
        c3 := ⟨-dot (cross F U) p, -dot U p, dot F p, 1⟩ } := by
  have h1 : p + F - p = F := by
    rw [Vec3.ext_iff3]; simp
  have h2 : normalize realMath F = F := normalize_real_of_unit F hF
  have h3 : normalize realMath (cross F U) = cross F U := by
    apply normalize_real_of_unit
    rw [dot_cross_self, hF, hU, hFU]; norm_num
  have h4 : cross (cross F U) F = U := by
    rw [cross_cross_self, hF, hFU, Vec3.ext_iff3]; simp
  simp only [lookAt, h1, h2, h3, h4]

/-- C12: when the vectors `Front`, `Right`, `Up` the view matrix is built from
(the cached ones for `GetViewMatrix(false)`, the recomputed ones for
`GetViewMatrix(true)`) are mutually orthogonal unit vectors with
`Right = cross Front Up`, the matrix returned is a rigid view transform: the
rows of its upper-left 3x3 block are `Right`, `Up` and `-Front`, which are
orthonormal, its last row is `(0, 0, 0, 1)`, and it maps the point `Position`
to the origin. -/
theorem GetViewMatrix_rigid (c : Camera ℝ) (ortho orthoArg : Bool)
    (hF : dot (c.GetViewMatrix realMath ortho orthoArg).2.Front
      (c.GetViewMatrix realMath ortho orthoArg).2.Front = 1)
    (hR : dot (c.GetViewMatrix realMath ortho orthoArg).2.Right
      (c.GetViewMatrix realMath ortho orthoArg).2.Right = 1)
    (hU : dot (c.GetViewMatrix realMath ortho orthoArg).2.Up
      (c.GetViewMatrix realMath ortho orthoArg).2.Up = 1)
    (hFR : dot (c.GetViewMatrix realMath ortho orthoArg).2.Front
      (c.GetViewMatrix realMath ortho orthoArg).2.Right = 0)
    (hFU : dot (c.GetViewMatrix realMath ortho orthoArg).2.Front
      (c.GetViewMatrix realMath ortho orthoArg).2.Up = 0)
    (hRU : dot (c.GetViewMatrix realMath ortho orthoArg).2.Right
      (c.GetViewMatrix realMath ortho orthoArg).2.Up = 0)
    (hcross : (c.GetViewMatrix realMath ortho orthoArg).2.Right
      = cross (c.GetViewMatrix realMath ortho orthoArg).2.Front
          (c.GetViewMatrix realMath ortho orthoArg).2.Up) :
    (c.GetViewMatrix realMath ortho orthoArg).1.rot0
        = (c.GetViewMatrix realMath ortho orthoArg).2.Right
      ∧ (c.GetViewMatrix realMath ortho orthoArg).1.rot1
        = (c.GetViewMatrix realMath ortho orthoArg).2.Up
      ∧ (c.GetViewMatrix realMath ortho orthoArg).1.rot2
        = -(c.GetViewMatrix realMath ortho orthoArg).2.Front
      ∧ dot (c.GetViewMatrix realMath ortho orthoArg).1.rot0
          (c.GetViewMatrix realMath ortho orthoArg).1.rot0 = 1
      ∧ dot (c.GetViewMatrix realMath ortho orthoArg).1.rot1
          (c.GetViewMatrix realMath ortho orthoArg).1.rot1 = 1
      ∧ dot (c.GetViewMatrix realMath ortho orthoArg).1.rot2
          (c.GetViewMatrix realMath ortho orthoArg).1.rot2 = 1
      ∧ dot (c.GetViewMatrix realMath ortho orthoArg).1.rot0
          (c.GetViewMatrix realMath ortho orthoArg).1.rot1 = 0
      ∧ dot (c.GetViewMatrix realMath ortho orthoArg).1.rot0
          (c.GetViewMatrix realMath ortho orthoArg).1.rot2 = 0
      ∧ dot (c.GetViewMatrix realMath ortho orthoArg).1.rot1
          (c.GetViewMatrix realMath ortho orthoArg).1.rot2 = 0
      ∧ (c.GetViewMatrix realMath ortho orthoArg).1.row3 = ⟨0, 0, 0, 1⟩
      ∧ (c.GetViewMatrix realMath ortho orthoArg).1.mulVec
          (c.GetViewMatrix realMath ortho orthoArg).2.Position.point = ⟨0, 0, 0, 1⟩ := by
  have hM : (c.GetViewMatrix realMath ortho orthoArg).1
      = lookAt realMath (c.GetViewMatrix realMath ortho orthoArg).2.Position
          ((c.GetViewMatrix realMath ortho orthoArg).2.Position
            + (c.GetViewMatrix realMath ortho orthoArg).2.Front)
          (c.GetViewMatrix realMath ortho orthoArg).2.Up := by
    cases orthoArg <;> simp [Camera.GetViewMatrix]
  rw [hM, lookAt_of_orthonormal _ _ _ hF hU hFU, ← hcross]
  generalize (c.GetViewMatrix realMath ortho orthoArg).2 = d at *
  have h0 : (⟨d.Right.x, d.Right.y, d.Right.z⟩ : Vec3 ℝ) = d.Right := rfl
  have h1 : (⟨d.Up.x, d.Up.y, d.Up.z⟩ : Vec3 ℝ) = d.Up := rfl
  have h2 : (⟨-d.Front.x, -d.Front.y, -d.Front.z⟩ : Vec3 ℝ) = -d.Front := rfl
  have hnn : dot (-d.Front) (-d.Front) = 1 := by
    rw [← hF]; simp only [dot, Vec3.neg_x, Vec3.neg_y, Vec3.neg_z]; ring
  have hRnF : dot d.Right (-d.Front) = 0 := by
    have : dot d.Right (-d.Front) = -dot d.Front d.Right := by
      simp only [dot, Vec3.neg_x, Vec3.neg_y, Vec3.neg_z]; ring
    rw [this, hFR]; norm_num
  have hUnF : dot d.Up (-d.Front) = 0 := by
    have : dot d.Up (-d.Front) = -dot d.Front d.Up := by
      simp only [dot, Vec3.neg_x, Vec3.neg_y, Vec3.neg_z]; ring
    rw [this, hFU]; norm_num
  simp only [Mat4.rot0, Mat4.rot1, Mat4.rot2, Mat4.row3, h0, h1, h2]
  refine ⟨trivial, trivial, trivial, hR, hU, hnn, hRU, hRnF, hUnF, trivial, ?_⟩
  simp only [Mat4.mulVec, Vec3.point, dot, Vec3.neg_x, Vec3.neg_y, Vec3.neg_z, Vec4.mk.injEq]
  refine ⟨?_, ?_, ?_, ?_⟩ <;> ring

/-- Witness for C12: the camera at rest, queried with `GetViewMatrix(false)`. -/
theorem GetViewMatrix_rigid_witness :
    dot (Camera.atRest : Camera ℝ).Front (Camera.atRest : Camera ℝ).Up = 0
      ∧ (Camera.atRest : Camera ℝ).Right
        = cross (Camera.atRest : Camera ℝ).Front (Camera.atRest : Camera ℝ).Up
      ∧ ((Camera.atRest : Camera ℝ).GetViewMatrix realMath false false).1.rot0 = ⟨1, 0, 0⟩
      ∧ ((Camera.atRest : Camera ℝ).GetViewMatrix realMath false false).1.mulVec
          (Camera.atRest : Camera ℝ).Position.point = ⟨0, 0, 0, 1⟩ := by
  have hc : ((Camera.atRest : Camera ℝ).GetViewMatrix realMath false false).2 = Camera.atRest :=
    rfl
  have hFU : dot (Camera.atRest : Camera ℝ).Front (Camera.atRest : Camera ℝ).Up = 0 := by
    norm_num [Camera.atRest, dot]
  have hcross : (Camera.atRest : Camera ℝ).Right
      = cross (Camera.atRest : Camera ℝ).Front (Camera.atRest : Camera ℝ).Up := by
    simp [Camera.atRest, cross]
  have h := GetViewMatrix_rigid (Camera.atRest : Camera ℝ) false false
    (by rw [hc]; norm_num [Camera.atRest, dot]) (by rw [hc]; norm_num [Camera.atRest, dot])
    (by rw [hc]; norm_num [Camera.atRest, dot]) (by rw [hc]; norm_num [Camera.atRest, dot])
    (by rw [hc]; exact hFU) (by rw [hc]; norm_num [Camera.atRest, dot])
    (by rw [hc]; exact hcross)
  exact ⟨hFU, hcross, h.1, h.2.2.2.2.2.2.2.2.2.2⟩

/-! ## Projections -/

/-- The orthographic projection of the render loop, entry by entry. -/
theorem projection_true_matrix :
    projection realMath true
      = ⟨⟨1 / 4, 0, 0, 0⟩, ⟨0, -1 / 3, 0, 0⟩, ⟨0, 0, -1 / 7, 0⟩, ⟨0, 0, -3 / 7, 1⟩⟩ := by
  have hW : ((WINDOW_WIDTH : Int) : ℝ) / 200 = 4 := by norm_num [WINDOW_WIDTH]
  have hH : ((WINDOW_HEIGHT : Int) : ℝ) / 200 = 3 := by norm_num [WINDOW_HEIGHT]
  simp only [projection, if_true, hW, hH, glm_ortho]
  norm_num

/-- The tangent of the real instance is the real tangent. -/
theorem tan_realMath (x : ℝ) : tan realMath x = Real.tan x := by
  simp [tan, Real.tan_eq_sin_div_cos]

/-- The tangent of 22.5 radians exceeds the tangent of 22.5 degrees, which is
positive. -/
theorem tan_half_fov_gap :
    0 < Real.tan (Real.pi / 8) ∧ Real.tan (Real.pi / 8) < Real.tan (45 / 2) := by
  have h3 := Real.pi_gt_three
  have h315 := Real.pi_lt_d2
  constructor
  · exact Real.tan_pos_of_pos_of_lt_pi_div_two (by positivity) (by linarith)
  · have hper : Real.tan (45 / 2 - (7 : ℕ) * Real.pi) = Real.tan (45 / 2) :=
      Real.tan_sub_nat_mul_pi _ 7
    rw [← hper]
    apply Real.tan_lt_tan_of_lt_of_lt_pi_div_two
    · linarith
    · push_cast; linarith
    · push_cast; linarith

/-- C14 (the code at its only input): both programs call
`glm::perspective(45.0f, 800/600, 0.1f, 100.0f)`, whose first argument is an
angle in radians, so the entry `m11` is `1 / tan (45 / 2)` with 22.5 taken in
radians; the closed form for a field of view of 45 degrees has
`m11 = 1 / tan (pi / 8)`, which is strictly larger, so the two matrices
differ (the depth entries `m22`, `m23`, `m32` agree). -/
theorem projection_perspective_radians :
    projection realMath false = projectionChest3D realMath
      ∧ (projection realMath false).c1.y = 1 / Real.tan (45 / 2)
      ∧ (perspectiveClosedForm realMath 45 (800 / 600) 0.1 100).c1.y
        = 1 / Real.tan (Real.pi / 8)
      ∧ (projection realMath false).c1.y
        < (perspectiveClosedForm realMath 45 (800 / 600) 0.1 100).c1.y
      ∧ projection realMath false ≠ perspectiveClosedForm realMath 45 (800 / 600) 0.1 100
      ∧ (projection realMath false).c2
        = (perspectiveClosedForm realMath 45 (800 / 600) 0.1 100).c2
      ∧ (projection realMath false).c3
        = (perspectiveClosedForm realMath 45 (800 / 600) 0.1 100).c3 := by
  have h1 : (projection realMath false).c1.y = 1 / Real.tan (45 / 2) := by
    simp [projection, glm_perspective, tan_realMath]
  have h2 : (perspectiveClosedForm realMath 45 (800 / 600) 0.1 100).c1.y
      = 1 / Real.tan (Real.pi / 8) := by
    have hr : (45 : ℝ) / 2 * (Real.pi / 180) = Real.pi / 8 := by ring
    simp [perspectiveClosedForm, tan_realMath, radians, hr]
  have h3 : (projection realMath false).c1.y
      < (perspectiveClosedForm realMath 45 (800 / 600) 0.1 100).c1.y := by
    rw [h1, h2]
    exact one_div_lt_one_div_of_lt tan_half_fov_gap.1 tan_half_fov_gap.2
  refine ⟨rfl, h1, h2, h3, ?_, ?_, ?_⟩
  · intro h
    rw [h] at h3
    exact lt_irrefl _ h3
  · simp [projection, glm_perspective, perspectiveClosedForm]
  · simp [projection, glm_perspective, perspectiveClosedForm]

/-- C15: with the flag orthographic, at the default orientation (yaw -90,
pitch 0, `WorldUp = (0, 1, 0)`, `OrthoWorldUp = -WorldUp`) and any camera
position, under the composed transform `projection * GetViewMatrix(true)` the
clip-space y of a world point strictly increases when the point is displaced
along `WorldUp`: the negated reference up of the basis and the swapped bottom
and top of the projection cancel. -/
theorem ortho_pipeline_vertical_sense (c : Camera ℝ) (p : Vec3 ℝ) (t : ℝ)
    (hy : c.Yaw = -90) (hp : c.Pitch = 0)
    (hw : c.WorldUp = ⟨0, 1, 0⟩) (ho : c.OrthoWorldUp = -c.WorldUp) (ht : 0 < t) :
    (((projection realMath true).mul (c.GetViewMatrix realMath true true).1).mulVec p.point).y
      < (((projection realMath true).mul (c.GetViewMatrix realMath true true).1).mulVec
          (p + c.WorldUp * t).point).y := by
  have hu := update_default c true hy hp hw (by rw [ho, hw]; simp [Vec3.ext_iff3])
  have hV : (c.GetViewMatrix realMath true true).1
      = lookAt realMath c.Position (c.Position + ⟨0, 0, -1⟩) ⟨0, -1, 0⟩ := by
    simp [Camera.GetViewMatrix, hu]
  rw [hV, lookAt_of_orthonormal _ _ _ (by norm_num [dot]) (by norm_num [dot])
    (by norm_num [dot]), projection_true_matrix, hw]
  simp only [Mat4.mul, Mat4.mulVec, Vec3.point, cross, dot, Vec3.add_x, Vec3.add_y,
    Vec3.add_z, Vec3.mul_x, Vec3.mul_y, Vec3.mul_z]
  norm_num
  linarith

/-- Witness for C15: the camera at rest, the origin, a displacement of 1. -/
theorem ortho_pipeline_vertical_sense_witness :
    (((projection realMath true).mul
        ((Camera.atRest : Camera ℝ).GetViewMatrix realMath true true).1).mulVec
        (⟨0, 0, 0⟩ : Vec3 ℝ).point).y
      < (((projection realMath true).mul
          ((Camera.atRest : Camera ℝ).GetViewMatrix realMath true true).1).mulVec
          ((⟨0, 0, 0⟩ : Vec3 ℝ) + (Camera.atRest : Camera ℝ).WorldUp * (1 : ℝ)).point).y :=
  ortho_pipeline_vertical_sense Camera.atRest ⟨0, 0, 0⟩ 1 rfl rfl rfl
    (by simp [Camera.atRest, Vec3.ext_iff3]) one_pos

/-! ## Construction and yaw periodicity -/

/-- C17: the constructor stores `position`, `up`, `yaw`, `pitch`, sets
`OrthoWorldUp = -up` (componentwise), `MovementSpeed = 2.5`,
`MouseSensitivity = 0.1`, `Zoom = 45`, and leaves the basis recomputed for
(yaw, pitch) with the reference up vector selected by the flag; the flag is
`false` when the program constructs its camera (static initialisation), so
the basis is the perspective-mode one, `Right = normalize (cross Front up)`.
With all arguments defaulted: yaw -90, pitch 0, `Front = (0, 0, -1)`,
`Right = (1, 0, 0)`, `Up = (0, 1, 0)`. -/
theorem Construct_fields :
    (∀ (α : Type) [LinearOrderedField α] (m : MathFns α) (ortho : Bool)
        (position up : Vec3 α) (yaw pitch : α),
        (Camera.Construct m ortho position up yaw pitch).Position = position
          ∧ (Camera.Construct m ortho position up yaw pitch).WorldUp = up
          ∧ (Camera.Construct m ortho position up yaw pitch).Yaw = yaw
          ∧ (Camera.Construct m ortho position up yaw pitch).Pitch = pitch
          ∧ (Camera.Construct m ortho position up yaw pitch).OrthoWorldUp = -up
          ∧ (Camera.Construct m ortho position up yaw pitch).OrthoWorldUp
            = ⟨-up.x, -up.y, -up.z⟩
          ∧ (Camera.Construct m ortho position up yaw pitch).MovementSpeed = 2.5
          ∧ (Camera.Construct m ortho position up yaw pitch).MouseSensitivity = 0.1
          ∧ (Camera.Construct m ortho position up yaw pitch).Zoom = 45
          ∧ (Camera.Construct m ortho position up yaw pitch).Front
            = normalize m
                ⟨m.cos (yaw * (m.pi / 180)) * m.cos (pitch * (m.pi / 180)),
                 m.sin (pitch * (m.pi / 180)),
                 m.sin (yaw * (m.pi / 180)) * m.cos (pitch * (m.pi / 180))⟩
          ∧ (Camera.Construct m ortho position up yaw pitch).Right
            = normalize m (cross (Camera.Construct m ortho position up yaw pitch).Front
                (if ortho then -up else up))
          ∧ (Camera.Construct m ortho position up yaw pitch).Up
            = normalize m (cross (Camera.Construct m ortho position up yaw pitch).Right
                (Camera.Construct m ortho position up yaw pitch).Front)
          ∧ (Camera.Construct m false position up yaw pitch).Right
            = normalize m (cross (Camera.Construct m false position up yaw pitch).Front up))
      ∧ (Camera.Construct realMath false ⟨0, 0, 0⟩ ⟨0, 1, 0⟩ YAW PITCH).Yaw = -90
      ∧ (Camera.Construct realMath false ⟨0, 0, 0⟩ ⟨0, 1, 0⟩ YAW PITCH).Pitch = 0
      ∧ (Camera.Construct realMath false ⟨0, 0, 0⟩ ⟨0, 1, 0⟩ YAW PITCH).Front = ⟨0, 0, -1⟩
      ∧ (Camera.Construct realMath false ⟨0, 0, 0⟩ ⟨0, 1, 0⟩ YAW PITCH).Right = ⟨1, 0, 0⟩
      ∧ (Camera.Construct realMath false ⟨0, 0, 0⟩ ⟨0, 1, 0⟩ YAW PITCH).Up = ⟨0, 1, 0⟩ := by
  constructor
  · intro α _ m ortho position up yaw pitch
    cases ortho <;>
      simp [Camera.Construct, Camera.updateCameraVectors, radians, SPEED, SENSITIVITY, ZOOM] <;>
      rfl
  · simp only [Camera.Construct]
    rw [update_default _ false rfl rfl rfl (by simp [Vec3.ext_iff3])]
    simp [YAW, PITCH]

/-- Adding 360 degrees to the yaw does not change the derived basis. -/
theorem derivedBasis_yaw_period (yaw pitch : ℝ) (refUp : Vec3 ℝ) :
    derivedBasis realMath (yaw + 360) pitch refUp = derivedBasis realMath yaw pitch refUp := by
  have h : (yaw + 360) * (Real.pi / 180) = yaw * (Real.pi / 180) + 2 * Real.pi := by ring
  simp only [derivedBasis, radians, realMath_cos, realMath_sin, realMath_pi, h,
    Real.cos_add_two_pi, Real.sin_add_two_pi]

/-- C20: for every camera (any pitch, reference up vectors, position) and
either value of the flag, the basis recomputed after the yaw is increased by
360 degrees equals the basis recomputed for the original yaw, over exact real
arithmetic; the stored yaw differs by 360 and the view matrices returned by
`GetViewMatrix` are equal. -/
theorem updateCameraVectors_yaw_period (c : Camera ℝ) (ortho : Bool) :
    (({ c with Yaw := c.Yaw + 360 } : Camera ℝ).updateCameraVectors realMath ortho).Front
        = (c.updateCameraVectors realMath ortho).Front
      ∧ (({ c with Yaw := c.Yaw + 360 } : Camera ℝ).updateCameraVectors realMath ortho).Right
        = (c.updateCameraVectors realMath ortho).Right
      ∧ (({ c with Yaw := c.Yaw + 360 } : Camera ℝ).updateCameraVectors realMath ortho).Up
        = (c.updateCameraVectors realMath ortho).Up
      ∧ (({ c with Yaw := c.Yaw + 360 } : Camera ℝ).updateCameraVectors realMath ortho).Yaw
        = (c.updateCameraVectors realMath ortho).Yaw + 360
      ∧ ((({ c with Yaw := c.Yaw + 360 } : Camera ℝ).updateCameraVectors realMath
            ortho).GetViewMatrix realMath ortho ortho).1
        = ((c.updateCameraVectors realMath ortho).GetViewMatrix realMath ortho ortho).1
      ∧ (({ c with Yaw := c.Yaw + 360 } : Camera ℝ).GetViewMatrix realMath ortho true).1
        = (c.GetViewMatrix realMath ortho true).1 := by
  have hb := derivedBasis_yaw_period c.Yaw c.Pitch (if ortho then c.OrthoWorldUp else c.WorldUp)
  have hu : (({ c with Yaw := c.Yaw + 360 } : Camera ℝ).updateCameraVectors realMath ortho)
      = { c.updateCameraVectors realMath ortho with Yaw := c.Yaw + 360 } := by
    rw [Camera.updateCameraVectors_eq, Camera.updateCameraVectors_eq]
    simp only [hb]
  have hv : (({ c with Yaw := c.Yaw + 360 } : Camera ℝ).GetViewMatrix realMath ortho true).1
      = (c.GetViewMatrix realMath ortho true).1 := by
    simp only [Camera.GetViewMatrix, if_true, hu]
  refine ⟨?_, ?_, ?_, ?_, ?_, hv⟩
  · rw [hu]
  · rw [hu]
  · rw [hu]
  · rw [hu]; simp [Camera.updateCameraVectors_eq]
  · rw [hu]
    cases ortho
    · simp [Camera.GetViewMatrix]
    · simp only [Camera.GetViewMatrix, if_true]
      rw [← hu, Camera.updateCameraVectors_idem, Camera.updateCameraVectors_idem, hu]

/-! ## Key callback and meshes -/

/-- C25 (the code at the failing input): for the key P and the action
`GLFW_REPEAT`, which is neither a press nor a release, `key_callback` negates
the flag, although the comment in the source says that only press events are
handled; a release leaves the flag alone, a press of P negates it, and in
general the flag changes exactly when the key is P and the action is not a
release. -/
theorem key_callback_repeat (ortho : Bool) (scancode mods : Int) :
    key_callback ortho GLFW_KEY_P scancode GLFW_REPEAT mods = !ortho
      ∧ key_callback ortho GLFW_KEY_P scancode GLFW_REPEAT mods ≠ ortho
      ∧ GLFW_REPEAT ≠ GLFW_PRESS
      ∧ (∀ key : Int, key_callback ortho key scancode GLFW_RELEASE mods = ortho)
      ∧ key_callback ortho GLFW_KEY_P scancode GLFW_PRESS mods = !ortho
      ∧ (∀ key action : Int,
          key_callback ortho key scancode action mods ≠ ortho
            ↔ key = GLFW_KEY_P ∧ action ≠ GLFW_RELEASE) := by
  refine ⟨by simp [key_callback, GLFW_REPEAT, GLFW_RELEASE],
    by cases ortho <;> simp [key_callback, GLFW_REPEAT, GLFW_RELEASE],
    by decide, fun key => by simp [key_callback],
    by simp [key_callback, GLFW_PRESS, GLFW_RELEASE], ?_⟩
  · intro key action
    by_cases ha : action = GLFW_RELEASE <;> by_cases hk : key = GLFW_KEY_P <;>
      cases ortho <;> simp [key_callback, ha, hk]

/-- C26: the chest body and chest decor meshes of both programs have 8
vertices and the plane mesh has 4, each of 9 floats (3 position, 4 colour, 2
texture; the stride is 9 floats, 36 bytes); every index is below the vertex
count, `nIndices` is the length of the index array (36, 36, 6), and no index
makes a draw call read past the end of the vertex buffer. -/
theorem meshes_index_safe :
    floatsPerVertex + floatsPerColor + floatsPerTex = 9
      ∧ stride = 9 * sizeofFloat
      ∧ indexSafe chestBodyV chestBodyI 8
      ∧ indexSafe chestDecorV chestDecorI 8
      ∧ indexSafe planeV planeI 4
      ∧ indexSafe Chest3D.chestBodyV Chest3D.chestBodyI 8
      ∧ indexSafe Chest3D.chestDecorV Chest3D.chestDecorI 8
      ∧ chestBodyV.length = 72 ∧ chestDecorV.length = 72 ∧ planeV.length = 36
      ∧ Chest3D.chestBodyV.length = 72 ∧ Chest3D.chestDecorV.length = 72
      ∧ nIndices chestBodyI = chestBodyI.length ∧ nIndices chestBodyI = 36
      ∧ nIndices chestDecorI = chestDecorI.length ∧ nIndices chestDecorI = 36
      ∧ nIndices planeI = planeI.length ∧ nIndices planeI = 6
      ∧ nIndices Chest3D.chestBodyI = Chest3D.chestBodyI.length
      ∧ nIndices Chest3D.chestBodyI = 36
      ∧ nIndices Chest3D.chestDecorI = Chest3D.chestDecorI.length
      ∧ nIndices Chest3D.chestDecorI = 36 := by
  refine ⟨rfl, rfl, ⟨rfl, by decide, by decide⟩, ⟨rfl, by decide, by decide⟩,
    ⟨rfl, by decide, by decide⟩, ⟨rfl, by decide, by decide⟩, ⟨rfl, by decide, by decide⟩,
    rfl, rfl, rfl, rfl, rfl, rfl, rfl, rfl, rfl, rfl, rfl, rfl, rfl, rfl, rfl⟩

/-! ## The two modes compared -/

section Modes

variable {α : Type} [LinearOrderedField α]

/-- Negating the second argument negates the cross product. -/
theorem cross_neg_right (a b : Vec3 α) : cross a (-b) = -cross a b := by
  rw [Vec3.ext_iff3]
  simp only [cross, Vec3.neg_x, Vec3.neg_y, Vec3.neg_z]
  refine ⟨?_, ?_, ?_⟩ <;> ring

/-- Negating the first argument negates the cross product. -/
theorem cross_neg_left (a b : Vec3 α) : cross (-a) b = -cross a b := by
  rw [Vec3.ext_iff3]
  simp only [cross, Vec3.neg_x, Vec3.neg_y, Vec3.neg_z]
  refine ⟨?_, ?_, ?_⟩ <;> ring

/-- A vector and its negation have the same squared length. -/
theorem dot_neg_neg (a : Vec3 α) : dot (-a) (-a) = dot a a := by
  simp only [dot, Vec3.neg_x, Vec3.neg_y, Vec3.neg_z]
  ring

/-- Normalising the negation gives the negation of the normalised vector,
whatever the square root function is. -/
theorem normalize_neg (m : MathFns α) (a : Vec3 α) : normalize m (-a) = -normalize m a := by
  unfold normalize
  rw [dot_neg_neg, Vec3.ext_iff3]
  simp only [Vec3.neg_x, Vec3.neg_y, Vec3.neg_z, Vec3.mul_x, Vec3.mul_y, Vec3.mul_z]
  refine ⟨?_, ?_, ?_⟩ <;> ring

/-- The basis derived with the negated reference up vector has the same
front and the negated right and up. -/
theorem derivedBasis_neg (m : MathFns α) (yaw pitch : α) (refUp : Vec3 α) :
    derivedBasis m yaw pitch (-refUp)
      = ((derivedBasis m yaw pitch refUp).1, -(derivedBasis m yaw pitch refUp).2.1,
          -(derivedBasis m yaw pitch refUp).2.2) := by
  simp only [derivedBasis, cross_neg_right, normalize_neg, cross_neg_left]

/-- Position after `ProcessKeyboard DOWNWARD`, by mode flag. -/
theorem Camera.ProcessKeyboard_downward (c : Camera α) (deltaTime : α) (ortho : Bool) :
    (c.ProcessKeyboard ortho Camera_Movement.DOWNWARD deltaTime).Position
      = if ortho then c.Position + c.Up * (c.MovementSpeed * deltaTime)
        else c.Position - c.Up * (c.MovementSpeed * deltaTime) := by
  cases ortho <;> simp [Camera.ProcessKeyboard]

/-- C21: for a camera with `OrthoWorldUp = -WorldUp` (as the constructor sets
it), any yaw, pitch, `WorldUp`, movement speed and `deltaTime`, in exact
arithmetic: the basis recomputed in orthographic mode has `Up` (and `Right`)
equal to the negation of the perspective-mode `Up` (and `Right`) for the same
yaw and pitch, so `ProcessKeyboard UPWARD` in orthographic mode on the
orthographic basis gives exactly the position that `ProcessKeyboard UPWARD`
gives in perspective mode on the perspective basis, and likewise for
`DOWNWARD`.  (The proviso that `WorldUp` is not parallel to `Front` is not
needed here: both bases degenerate alike.) -/
theorem upward_same_in_both_modes (m : MathFns α) (c : Camera α) (deltaTime : α)
    (ho : c.OrthoWorldUp = -c.WorldUp) :
    (c.updateCameraVectors m true).Up = -(c.updateCameraVectors m false).Up
      ∧ (c.updateCameraVectors m true).Right = -(c.updateCameraVectors m false).Right
      ∧ (c.updateCameraVectors m true).Front = (c.updateCameraVectors m false).Front
      ∧ ((c.updateCameraVectors m true).ProcessKeyboard true
            Camera_Movement.UPWARD deltaTime).Position
        = ((c.updateCameraVectors m false).ProcessKeyboard false
            Camera_Movement.UPWARD deltaTime).Position
      ∧ ((c.updateCameraVectors m true).ProcessKeyboard true
            Camera_Movement.DOWNWARD deltaTime).Position
        = ((c.updateCameraVectors m false).ProcessKeyboard false
            Camera_Movement.DOWNWARD deltaTime).Position := by
  have hU : (c.updateCameraVectors m true).Up = -(c.updateCameraVectors m false).Up := by
    simp [Camera.updateCameraVectors_eq, ho, derivedBasis_neg]
  have hR : (c.updateCameraVectors m true).Right = -(c.updateCameraVectors m false).Right := by
    simp [Camera.updateCameraVectors_eq, ho, derivedBasis_neg]
  have hF : (c.updateCameraVectors m true).Front = (c.updateCameraVectors m false).Front := by
    simp [Camera.updateCameraVectors_eq, ho, derivedBasis_neg]
  have hP : (c.updateCameraVectors m true).Position = (c.updateCameraVectors m false).Position := by
    simp [Camera.updateCameraVectors_eq]
  have hS : (c.updateCameraVectors m true).MovementSpeed
      = (c.updateCameraVectors m false).MovementSpeed := by
    simp [Camera.updateCameraVectors_eq]
  refine ⟨hU, hR, hF, ?_, ?_⟩
  · rw [Camera.ProcessKeyboard_upward, Camera.ProcessKeyboard_upward, hU, hP, hS,
      Vec3.ext_iff3]
    simp
  · rw [Camera.ProcessKeyboard_downward, Camera.ProcessKeyboard_downward, hU, hP, hS,
      Vec3.ext_iff3]
    simp [sub_eq_add_neg]

end Modes

/-- Witness for C21: the camera at rest over the reals, moved for one second. -/
theorem upward_same_in_both_modes_witness :
    (Camera.atRest : Camera ℝ).OrthoWorldUp = -(Camera.atRest : Camera ℝ).WorldUp
      ∧ (((Camera.atRest : Camera ℝ).updateCameraVectors realMath true).ProcessKeyboard true
            Camera_Movement.UPWARD 1).Position
        = (((Camera.atRest : Camera ℝ).updateCameraVectors realMath false).ProcessKeyboard false
            Camera_Movement.UPWARD 1).Position :=
  have h : (Camera.atRest : Camera ℝ).OrthoWorldUp = -(Camera.atRest : Camera ℝ).WorldUp := by
    simp [Camera.atRest, Vec3.ext_iff3]
  ⟨h, (upward_same_in_both_modes realMath Camera.atRest 1 h).2.2.2.1⟩

/-- C22: at the default orientation (yaw -90, pitch 0, `WorldUp = (0, 1, 0)`,
`OrthoWorldUp = -WorldUp`) and any camera position, under
`projection * GetViewMatrix(true)` with the flag orthographic the clip-space
x of a world point strictly decreases when its world x increases, whereas
under `GetViewMatrix(false)` on the perspective-mode basis the view-space x
strictly increases with the world x. -/
theorem ortho_pipeline_mirrored (c : Camera ℝ) (p : Vec3 ℝ) (t : ℝ)
    (hy : c.Yaw = -90) (hp : c.Pitch = 0)
    (hw : c.WorldUp = ⟨0, 1, 0⟩) (ho : c.OrthoWorldUp = -c.WorldUp) (ht : 0 < t) :
    (((projection realMath true).mul (c.GetViewMatrix realMath true true).1).mulVec
          (p + ⟨t, 0, 0⟩).point).x
        < (((projection realMath true).mul (c.GetViewMatrix realMath true true).1).mulVec
            p.point).x
      ∧ (((c.updateCameraVectors realMath false).GetViewMatrix realMath false false).1.mulVec
            p.point).x
        < (((c.updateCameraVectors realMath false).GetViewMatrix realMath false false).1.mulVec
            (p + ⟨t, 0, 0⟩).point).x := by
  have ho2 : c.OrthoWorldUp = ⟨0, -1, 0⟩ := by rw [ho, hw]; simp [Vec3.ext_iff3]
  have hu := update_default c true hy hp hw ho2
  have hu2 := update_default c false hy hp hw ho2
  have hV : (c.GetViewMatrix realMath true true).1
      = lookAt realMath c.Position (c.Position + ⟨0, 0, -1⟩) ⟨0, -1, 0⟩ := by
    simp [Camera.GetViewMatrix, hu]
  have hV2 : ((c.updateCameraVectors realMath false).GetViewMatrix realMath false false).1
      = lookAt realMath c.Position (c.Position + ⟨0, 0, -1⟩) ⟨0, 1, 0⟩ := by
    simp [Camera.GetViewMatrix, hu2]
  constructor
  · rw [hV, lookAt_of_orthonormal _ _ _ (by norm_num [dot]) (by norm_num [dot])
      (by norm_num [dot]), projection_true_matrix]
    simp only [Mat4.mul, Mat4.mulVec, Vec3.point, cross, dot, Vec3.add_x, Vec3.add_y,
      Vec3.add_z]
    norm_num
    linarith
  · rw [hV2, lookAt_of_orthonormal _ _ _ (by norm_num [dot]) (by norm_num [dot])
      (by norm_num [dot])]
    simp only [Mat4.mulVec, Vec3.point, cross, dot, Vec3.add_x, Vec3.add_y, Vec3.add_z]
    norm_num
    linarith

/-- Witness for C22: the camera at rest, the origin, a displacement of 1. -/
theorem ortho_pipeline_mirrored_witness :
    (((projection realMath true).mul
          ((Camera.atRest : Camera ℝ).GetViewMatrix realMath true true).1).mulVec
          ((⟨0, 0, 0⟩ : Vec3 ℝ) + ⟨1, 0, 0⟩).point).x
        < (((projection realMath true).mul
            ((Camera.atRest : Camera ℝ).GetViewMatrix realMath true true).1).mulVec
            (⟨0, 0, 0⟩ : Vec3 ℝ).point).x :=
  (ortho_pipeline_mirrored Camera.atRest ⟨0, 0, 0⟩ 1 rfl rfl rfl
    (by simp [Camera.atRest, Vec3.ext_iff3]) one_pos).1

/-! ## Image flipping -/

/-- Exchanging two bytes inside the buffer. -/
theorem swapBytes_spec (image : List Nat) (a b : Nat) (ha : a < image.length)
    (hb : b < image.length) (hab : a ≠ b) :
    ∃ r, swapBytes image a b = some r ∧ r.length = image.length
      ∧ ∀ idx, r[idx]? = if idx = a then image[b]? else if idx = b then image[a]? else image[idx]? := by
  refine ⟨(image.set a image[b]).set b image[a], ?_, by simp, ?_⟩
  · simp [swapBytes, List.getElem?_eq_getElem ha, List.getElem?_eq_getElem hb]
  · intro idx
    rw [List.getElem?_set, List.getElem?_set]
    by_cases h1 : idx = a
    · subst h1
      have : ¬ b = idx := fun h => hab h.symm
      simp [this, ha, List.getElem?_eq_getElem hb]
    · by_cases h2 : idx = b
      · subst h2
        simp [h1, hb, List.getElem?_eq_getElem ha]
      · have h3 : ¬ b = idx := fun h => h2 h.symm
        have h4 : ¬ a = idx := fun h => h1 h.symm
        simp [h1, h2, h3, h4]

/-- The inner loop exchanges two disjoint runs of `n` bytes. -/
theorem flipImageVertically_inner_spec (n : Nat) :
    ∀ (image : List Nat) (a b : Nat), a + n ≤ b → b + n ≤ image.length →
      ∃ r, flipImageVertically_inner n image a b = some r ∧ r.length = image.length
        ∧ ∀ idx, r[idx]? =
            if a ≤ idx ∧ idx < a + n then image[idx + b - a]?
            else if b ≤ idx ∧ idx < b + n then image[idx + a - b]?
            else image[idx]? := by
  induction n with
  | zero =>
      intro image a b _ _
      refine ⟨image, rfl, rfl, ?_⟩
      intro idx
      have h1 : ¬ (a ≤ idx ∧ idx < a + 0) := by omega
      have h2 : ¬ (b ≤ idx ∧ idx < b + 0) := by omega
      simp only [h1, h2, if_false]
  | succ n ih =>
      intro image a b hab hb
      obtain ⟨r1, hr1, hlen1, hget1⟩ :=
        swapBytes_spec image a b (by omega) (by omega) (by omega)
      obtain ⟨r, hr, hlen, hget⟩ := ih r1 (a + 1) (b + 1) (by omega) (by omega)
      refine ⟨r, ?_, by omega, ?_⟩
      · simp [flipImageVertically_inner, hr1, hr]
      · intro idx
        rw [hget idx]
        simp only [hget1]
        have key : ∀ x y : Nat, x = y → image[x]? = image[y]? := by
          intro x y h; rw [h]
        split_ifs <;> first | rfl | (apply key; omega)

/-- An index `ρ * W + k` with `k < W` lies in row `j` only if `ρ = j`. -/
theorem row_index (W ρ j k : Nat) (h1 : j * W ≤ ρ * W + k) (h2 : ρ * W + k < j * W + W)
    (hk : k < W) : ρ = j := by
  by_contra hne
  rcases Nat.lt_or_gt_of_ne hne with h | h
  · have h3 := Nat.mul_le_mul_right W (show ρ + 1 ≤ j by omega)
    have h4 : (ρ + 1) * W = ρ * W + W := by ring
    omega
  · have h3 := Nat.mul_le_mul_right W (show j + 1 ≤ ρ by omega)
    have h4 : (j + 1) * W = j * W + W := by ring
    omega

/-- One iteration of the outer loop exchanges row `j` with row
`h - 1 - j` and leaves every other row alone. -/
theorem flipImageVertically_inner_rows (W h j : Nat) (image : List Nat) (hj : 2 * j + 2 ≤ h)
    (hlen : image.length = h * W) :
    ∃ r, flipImageVertically_inner W image (j * W) ((h - 1 - j) * W) = some r
      ∧ r.length = image.length
      ∧ ∀ ρ k, ρ < h → k < W → r[ρ * W + k]? =
          if ρ = j then image[(h - 1 - j) * W + k]?
          else if ρ = h - 1 - j then image[j * W + k]?
          else image[ρ * W + k]? := by
  have e1 : (j + 1) * W = j * W + W := by ring
  have e2 : (j + 1) * W ≤ (h - 1 - j) * W := Nat.mul_le_mul_right W (by omega)
  have e3 : (h - 1 - j + 1) * W = (h - 1 - j) * W + W := by ring
  have e4 : (h - 1 - j + 1) * W ≤ h * W := Nat.mul_le_mul_right W (by omega)
  obtain ⟨r, hr, hl, hget⟩ :=
    flipImageVertically_inner_spec W image (j * W) ((h - 1 - j) * W) (by omega) (by omega)
  refine ⟨r, hr, hl, ?_⟩
  intro ρ k hρ hk
  rw [hget]
  have key : ∀ x y : Nat, x = y → image[x]? = image[y]? := by
    intro x y h; rw [h]
  by_cases c1 : ρ = j
  · subst c1
    have : ρ * W ≤ ρ * W + k ∧ ρ * W + k < ρ * W + W := by omega
    simp only [this, and_self, if_true]
    apply key; omega
  · by_cases c2 : ρ = h - 1 - j
    · subst c2
      have n1 : ¬ (j * W ≤ (h - 1 - j) * W + k ∧ (h - 1 - j) * W + k < j * W + W) := by omega
      have p2 : (h - 1 - j) * W ≤ (h - 1 - j) * W + k
          ∧ (h - 1 - j) * W + k < (h - 1 - j) * W + W := by omega
      simp only [n1, p2, c1, and_self, if_true, if_false]
      apply key; omega
    · have n1 : ¬ (j * W ≤ ρ * W + k ∧ ρ * W + k < j * W + W) :=
        fun hh => c1 (row_index W ρ j k hh.1 hh.2 hk)
      have n2 : ¬ ((h - 1 - j) * W ≤ ρ * W + k ∧ ρ * W + k < (h - 1 - j) * W + W) :=
        fun hh => c2 (row_index W ρ (h - 1 - j) k hh.1 hh.2 hk)
      simp only [n1, n2, c1, c2, if_false]

/-- The outer loop, run for `n` iterations from row `j`, exchanges the rows
`j .. j + n - 1` with their mirror images and leaves the rows in between
alone. -/
theorem flipImageVertically_outer_spec (width height channels : Nat) (n : Nat) :
    ∀ (j : Nat) (image : List Nat), j + n ≤ height / 2 →
      image.length = height * (width * channels) →
      ∃ r, flipImageVertically_outer width height channels n j image = some r
        ∧ r.length = image.length
        ∧ ∀ ρ k, ρ < height → k < width * channels →
            r[ρ * (width * channels) + k]? =
              if (j ≤ ρ ∧ ρ < j + n) ∨ (j ≤ height - 1 - ρ ∧ height - 1 - ρ < j + n)
              then image[(height - 1 - ρ) * (width * channels) + k]?
              else image[ρ * (width * channels) + k]? := by
  induction n with
  | zero =>
      intro j image _ _
      refine ⟨image, rfl, rfl, ?_⟩
      intro ρ k _ _
      have h1 : ¬ ((j ≤ ρ ∧ ρ < j + 0) ∨ (j ≤ height - 1 - ρ ∧ height - 1 - ρ < j + 0)) := by
        omega
      simp only [h1, if_false]
  | succ n ih =>
      intro j image hj hlen
      obtain ⟨r1, hr1, hl1, hget1⟩ :=
        flipImageVertically_inner_rows (width * channels) height j image (by omega) hlen
      obtain ⟨r, hr, hl, hget⟩ := ih (j + 1) r1 (by omega) (by omega)
      refine ⟨r, ?_, by omega, ?_⟩
      · simp only [flipImageVertically_outer, Nat.mul_assoc, hr1, Option.bind, hr]
      · intro ρ k hρ hk
        have hA := hget1 (height - 1 - ρ) k (by omega) hk
        have hB := hget1 ρ k hρ hk
        have key : ∀ x y : Nat, x = y →
            image[x * (width * channels) + k]? = image[y * (width * channels) + k]? := by
          intro x y h; rw [h]
        rw [hget ρ k hρ hk]
        split_ifs with c1 c2
        · rw [hA]; split_ifs <;> first | rfl | (apply key; omega)
        · rw [hA]; split_ifs <;> first | rfl | (apply key; omega)
        · rw [hB]; split_ifs <;> first | rfl | (apply key; omega)
        · rw [hB]; split_ifs <;> first | rfl | (apply key; omega)

/-- The whole function on a buffer of `height` rows of `width * channels`
bytes: it returns a buffer of the same length whose row `ρ` is the original
row `height - 1 - ρ`. -/
theorem flipImageVertically_spec (image : List Nat) (width height channels : Nat)
    (hlen : image.length = width * height * channels) :
    ∃ r, flipImageVertically image width height channels = some r
      ∧ r.length = image.length
      ∧ ∀ ρ k, ρ < height → k < width * channels →
          r[ρ * (width * channels) + k]? = image[(height - 1 - ρ) * (width * channels) + k]? := by
  have hlen2 : image.length = height * (width * channels) := by rw [hlen]; ring
  obtain ⟨r, hr, hl, hget⟩ :=
    flipImageVertically_outer_spec width height channels (height / 2) 0 image (by omega) hlen2
  refine ⟨r, hr, hl, ?_⟩
  intro ρ k hρ hk
  rw [hget ρ k hρ hk]
  split_ifs with c
  · rfl
  · have : height - 1 - ρ = ρ := by omega
    rw [this]

/-- Two lists of `h` rows of `W` entries that agree at every row and offset
are equal. -/
theorem ext_rows (a b : List Nat) (W h : Nat) (ha : a.length = h * W) (hb : b.length = h * W)
    (hrows : ∀ ρ k, ρ < h → k < W → a[ρ * W + k]? = b[ρ * W + k]?) : a = b := by
  apply List.ext_getElem?
  intro idx
  by_cases hi : idx < h * W
  · have hW : 0 < W := by
      rcases Nat.eq_zero_or_pos W with h0 | h0
      · subst h0; simp at hi
      · exact h0
    have h1 : idx / W < h := by
      rw [Nat.div_lt_iff_lt_mul hW]; exact hi
    have h2 : idx % W < W := Nat.mod_lt _ hW
    have h3 : idx / W * W + idx % W = idx := by
      rw [Nat.mul_comm]; exact Nat.div_add_mod idx W
    have := hrows (idx / W) (idx % W) h1 h2
    rwa [h3] at this
  · rw [List.getElem?_eq_none (by omega), List.getElem?_eq_none (by omega)]

/-- C23: for every width, height, channels and every buffer of
`width * height * channels` bytes, `flipImageVertically` returns a buffer of
the same length in which the byte at row `j`, offset `k` is the original byte
at row `height - 1 - j`, offset `k`, for all `j < height` and
`k < width * channels` (both positions lie inside the buffer); when `height`
is odd the middle row is unchanged. -/
theorem flipImageVertically_rows (image : List Nat) (width height channels : Nat)
    (hlen : image.length = width * height * channels) :
    ∃ r, flipImageVertically image width height channels = some r
      ∧ r.length = image.length
      ∧ (∀ j k, j < height → k < width * channels →
          j * width * channels + k < r.length
            ∧ (height - 1 - j) * width * channels + k < image.length
            ∧ r[j * width * channels + k]? = image[(height - 1 - j) * width * channels + k]?)
      ∧ (height % 2 = 1 → ∀ k, k < width * channels →
          r[height / 2 * width * channels + k]? = image[height / 2 * width * channels + k]?) := by
  obtain ⟨r, hr, hl, hget⟩ := flipImageVertically_spec image width height channels hlen
  have hlen2 : image.length = height * (width * channels) := by rw [hlen]; ring
  have bound : ∀ j k, j < height → k < width * channels →
      j * (width * channels) + k < height * (width * channels) := by
    intro j k hj hk
    have h3 := Nat.mul_le_mul_right (width * channels) (show j + 1 ≤ height by omega)
    have h4 : (j + 1) * (width * channels) = j * (width * channels) + width * channels := by ring
    omega
  refine ⟨r, hr, hl, ?_, ?_⟩
  · intro j k hj hk
    simp only [Nat.mul_assoc]
    refine ⟨?_, ?_, hget j k hj hk⟩
    · have := bound j k hj hk; omega
    · have := bound (height - 1 - j) k (by omega) hk; omega
  · intro hodd k hk
    simp only [Nat.mul_assoc]
    have := hget (height / 2) k (by omega) hk
    have e : height - 1 - height / 2 = height / 2 := by omega
    rwa [e] at this

/-- C24: for every width, height, channels and every buffer of
`width * height * channels` bytes, applying `flipImageVertically` twice with
the same dimensions returns the original buffer. -/
theorem flipImageVertically_involution (image : List Nat) (width height channels : Nat)
    (hlen : image.length = width * height * channels) :
    (flipImageVertically image width height channels).bind
        (fun flipped => flipImageVertically flipped width height channels)
      = some image := by
  obtain ⟨r1, hr1, hl1, hget1⟩ := flipImageVertically_spec image width height channels hlen
  obtain ⟨r2, hr2, hl2, hget2⟩ :=
    flipImageVertically_spec r1 width height channels (by omega)
  have hlen2 : image.length = height * (width * channels) := by rw [hlen]; ring
  rw [hr1]
  simp only [Option.bind, hr2]
  congr 1
  apply ext_rows r2 image (width * channels) height (by omega) hlen2
  intro ρ k hρ hk
  rw [hget2 ρ k hρ hk, hget1 (height - 1 - ρ) k (by omega) hk]
  have : height - 1 - (height - 1 - ρ) = ρ := by omega
  rw [this]

/-- Witness for C23: an image of width 1, height 3 and 2 channels; the first
and last rows are exchanged and the middle row stays. -/
theorem flipImageVertically_rows_witness :
    ([1, 2, 3, 4, 5, 6] : List Nat).length = 1 * 3 * 2
      ∧ flipImageVertically [1, 2, 3, 4, 5, 6] 1 3 2 = some [5, 6, 3, 4, 1, 2]
      ∧ ∃ r, flipImageVertically [1, 2, 3, 4, 5, 6] 1 3 2 = some r
          ∧ r.length = ([1, 2, 3, 4, 5, 6] : List Nat).length := by
  obtain ⟨r, hr, hl, _⟩ := flipImageVertically_rows [1, 2, 3, 4, 5, 6] 1 3 2 rfl
  exact ⟨rfl, by decide, r, hr, hl⟩

/-- Witness for C24: the same image of width 1, height 3 and 2 channels,
flipped twice. -/
theorem flipImageVertically_involution_witness :
    ([1, 2, 3, 4, 5, 6] : List Nat).length = 1 * 3 * 2
      ∧ (flipImageVertically [1, 2, 3, 4, 5, 6] 1 3 2).bind
          (fun flipped => flipImageVertically flipped 1 3 2) = some [1, 2, 3, 4, 5, 6] :=
  ⟨rfl, flipImageVertically_involution [1, 2, 3, 4, 5, 6] 1 3 2 rfl⟩

end OpenGLClass
